import Mathlib

/-!
# Verification of the rune compiler fragment (ModProg/rune)

Shallow embedding of the code under `src/` and proofs about the claims of the
specification.  The embedding covers:

* `crates/st/src/functions.rs` — the host-function registry (`St` namespace);
* `crates/rune/src/compile/source_loader.rs` — module file lookup (`Loader`);
* `crates/rune/src/query/query.rs` — meta insertion, indexed-entry selection,
  visibility checking and import resolution (`Query`);
* `crates/rune/src/ast.rs` — the recursive-descent expression parser and
  string-literal resolution (`Ast`).

Code of the repository that the claims depend on but that is not present under
`src/` (for example `Span::narrow`, `Item::ancestry`, the `Visibility`
predicates, the hash constructors, and the `Parser`/`Source` primitives) is
modelled from the specification; each such definition carries a doc comment
starting with `Modelled from the spec:`.
-/

namespace Rune

/-- A half-open byte range `[start, stop)`.  Mirrors `Span` (the source calls
the upper bound `end`, which is a keyword in Lean). -/
structure Span where
  start : Nat
  stop : Nat
deriving DecidableEq, Repr

/-- Modelled from the spec: `Span::narrow` (in `token.rs`, not under `src/`)
shrinks the span by `amount` bytes at each end; the spec describes its use as
"stripping the quote delimiters", narrowing by exactly one byte at each end. -/
def Span.narrow (s : Span) (amount : Nat) : Span :=
  ⟨s.start + amount, s.stop - amount⟩

/-- `Span::join`: the smallest span covering both. -/
def Span.join (a b : Span) : Span :=
  ⟨Nat.min a.start b.start, Nat.max a.stop b.stop⟩

/-- A location: a source id together with a span (`compile::Location`). -/
structure Location where
  source_id : Nat
  span : Span
deriving DecidableEq, Repr

namespace St

/-! ## `crates/st/src/functions.rs` -/

/-- Function hashes.  The digest itself lives in `hash.rs`, which is not under
`src/`; only equality of hashes matters to `Functions`, so the 64-bit digest is
modelled as a natural number. -/
abbrev Hash := Nat

/-- `RegisterError`: error raised while registering a function. -/
inductive RegisterError where
  | ConflictingFunction (hash : Hash)
deriving DecidableEq, Repr

/-- `Functions`: a collection of handlers looked up by hash.  The handler type
is abstract (`H`); the Rust `HashMap<Hash, Box<Handler>>` is an association
list, first binding wins. -/
structure Functions (H : Type) where
  functions : List (Hash × H)

/-- `HashMap::contains_key`. -/
def containsKey {H : Type} (fns : List (Hash × H)) (hash : Hash) : Bool :=
  fns.any (fun p => p.1 = hash)

/-- `Functions::lookup`. -/
def Functions.lookup {H : Type} (self : Functions H) (hash : Hash) : Option H :=
  (self.functions.find? (fun p => p.1 = hash)).map (fun p => p.2)

/-- `Functions::register`.  `global_fn` stands for `Hash::global_fn`
(modelled from the spec: a deterministic digest of the name, `hash.rs` is not
under `src/`).  The boxed closure wrapping `f` is the abstract handler value
`handler`.  Returns the result together with the registry state after the call
(`&mut self` in Rust). -/
def Functions.register {H : Type} (global_fn : String → Hash)
    (self : Functions H) (name : String) (handler : H) :
    Except RegisterError Hash × Functions H :=
  let hash := global_fn name
  if containsKey self.functions hash then
    (.error (.ConflictingFunction hash), self)
  else
    (.ok hash, ⟨(hash, handler) :: self.functions⟩)

/-- `Functions::register_instance`.  `instance_fn` stands for
`Hash::instance_fn` applied to `Func::instance_value_type()` (the value type is
abstract, of type `V`). -/
def Functions.register_instance {H V : Type} (instance_fn : V → String → Hash)
    (self : Functions H) (value_type : V) (name : String) (handler : H) :
    Except RegisterError Hash × Functions H :=
  let hash := instance_fn value_type name
  if containsKey self.functions hash then
    (.error (.ConflictingFunction hash), self)
  else
    (.ok hash, ⟨(hash, handler) :: self.functions⟩)

/-- `Functions::register_async`. -/
def Functions.register_async {H : Type} (global_fn : String → Hash)
    (self : Functions H) (name : String) (handler : H) :
    Except RegisterError Hash × Functions H :=
  let hash := global_fn name
  if containsKey self.functions hash then
    (.error (.ConflictingFunction hash), self)
  else
    (.ok hash, ⟨(hash, handler) :: self.functions⟩)

/-- `Functions::register_raw`. -/
def Functions.register_raw {H : Type} (global_fn : String → Hash)
    (self : Functions H) (name : String) (handler : H) :
    Except RegisterError Hash × Functions H :=
  let hash := global_fn name
  if containsKey self.functions hash then
    (.error (.ConflictingFunction hash), self)
  else
    (.ok hash, ⟨(hash, handler) :: self.functions⟩)

/-- `Functions::register_raw_async`. -/
def Functions.register_raw_async {H : Type} (global_fn : String → Hash)
    (self : Functions H) (name : String) (handler : H) :
    Except RegisterError Hash × Functions H :=
  let hash := global_fn name
  if containsKey self.functions hash then
    (.error (.ConflictingFunction hash), self)
  else
    (.ok hash, ⟨(hash, handler) :: self.functions⟩)

end St

namespace Loader

/-! ## `crates/rune/src/compile/source_loader.rs` -/

/-- A filesystem path, modelled as its list of components (standard-library
`PathBuf` is external to the repository). -/
abbrev PathC := List String

/-- `Path::pop`: remove the last component; reports failure on an empty path. -/
def pathPop (p : PathC) : Option PathC :=
  match p with
  | [] => none
  | _ => some p.dropLast

/-- `Path::push` / `Path::join` with a single relative component. -/
def pathJoin (p : PathC) (c : String) : PathC := p ++ [c]

/-- Strip the extension (the part after the last dot) from a file name. -/
def dropExt (cs : List Char) : List Char :=
  if ('.' ∈ cs) then ((cs.reverse.dropWhile (fun c => c ≠ '.')).drop 1).reverse
  else cs

/-- `Path::with_extension`: replace (or add) the extension of the final
component. -/
def withExtension (p : PathC) (ext : String) : PathC :=
  match p.getLast? with
  | none => p
  | some last => p.dropLast ++ [String.mk (dropExt last.toList) ++ "." ++ ext]

/-- `ComponentRef`: item-path components; only string components can be mapped
to filesystem paths. -/
inductive Comp where
  | Str (s : String)
  | Other (tag : Nat)
deriving DecidableEq, Repr

/-- The compile-error cases reachable from `FileSourceLoader::load`. -/
inductive LoadError where
  | UnsupportedModuleRoot (root : PathC)
  | UnsupportedModuleItem (item : List Comp)
  | ModNotFound (path : PathC)
  | FileError (path : PathC)
deriving DecidableEq, Repr

/-- The `for c in item` loop of `load`: push each string component, failing on
any other component kind. -/
def pushComps (base : PathC) (item : List Comp) : Option PathC :=
  match item with
  | [] => some base
  | .Str s :: rest => pushComps (pathJoin base s) rest
  | .Other _ :: _ => none

/-- `FileSourceLoader::load`.  The filesystem is abstracted by `is_file`
(`Path::is_file`) and `from_path` (`Source::from_path`, which may still fail
after the existence check); `S` is the type of loaded sources. -/
def load {S : Type} (is_file : PathC → Bool) (from_path : PathC → Option S)
    (root : PathC) (item : List Comp) : Except LoadError S :=
  match pathPop root with
  | none => .error (.UnsupportedModuleRoot root)
  | some base0 =>
    match pushComps base0 item with
    | none => .error (.UnsupportedModuleItem item)
    | some base =>
      let candidates : List PathC := [pathJoin base "mod.rn", withExtension base "rn"]
      match candidates.find? (fun p => is_file p) with
      | none => .error (.ModNotFound base)
      | some p =>
        match from_path p with
        | some source => .ok source
        | none => .error (.FileError p)

end Loader

namespace Query

/-! ## `crates/rune/src/query/query.rs`

The `Pool` interning of items and modules is elided: an `ItemId`/`ModId` is
represented directly by the interned item path (`pool.alloc_item` and
`pool.item` are both the identity, `pool.module_item` maps a module id to its
path), which is faithful because the pool identifies items with equal paths.
Side effects that do not feed back into resolution (the build queue, the
`CompileVisitor`, `unit.insert_meta`, tracing) are omitted. -/

/-- An item-path component.  The distinction between string names, crate
markers and synthetic ids does not matter to the query engine's resolution
logic, so a component is a string. -/
abbrev Component := String

/-- An interned item path (`Item` / `ItemId` / `ItemBuf`). -/
abbrev Item := List Component

/-- Type-parameter hashes; only equality and the `EMPTY` neutral element are
used by the query engine. -/
abbrev Hash := Nat

/-- `Hash::EMPTY`. -/
def Hash.EMPTY : Hash := 0

/-- `Visibility` — Modelled from the spec: `Public | Crate | Super | SelfOnly`
(`compile/visibility.rs` is not under `src/`). -/
inductive Visibility where
  | Public
  | Crate
  | Super
  | SelfOnly
deriving DecidableEq, Repr

/-- `ModMeta`: module metadata. -/
structure ModMeta where
  location : Location
  item : Item
  visibility : Visibility
  parent : Option Item
deriving DecidableEq, Repr

/-- `ItemMeta`: metadata assigned to every indexed declaration.  The opaque
generated id is kept as a plain number. -/
structure ItemMeta where
  id : Nat
  location : Location
  item : Item
  module : Item
  visibility : Visibility
deriving DecidableEq, Repr

/-- `meta::Import`: the resolved payload of an import. -/
structure ImportEntry where
  location : Location
  target : Item
  module : Item
deriving DecidableEq, Repr

/-- `meta::Kind`, restricted to what import resolution inspects: whether the
meta is an import.  All other variants (`Type`, `Struct`, `Function`, …) are
collapsed into `Other` since the query engine's import walker only ever
distinguishes `Kind::Import` from the rest. -/
inductive MetaKind where
  | Import (entry : ImportEntry)
  | Other (tag : Nat)
deriving DecidableEq, Repr

/-- `meta::Meta` (the `hash`, `context` and `source` fields carry no
information used by the embedded operations and are elided). -/
structure Meta where
  item_meta : ItemMeta
  kind : MetaKind
  parameters : Hash
deriving DecidableEq, Repr

/-- `ImportStep`: one step of an import chain, for diagnostics. -/
structure ImportStep where
  location : Location
  item : Item
deriving DecidableEq, Repr

/-- `indexing::Import`: an indexed import entry with its wildcard flag. -/
structure ImportIndexed where
  wildcard : Bool
  entry : ImportEntry
deriving DecidableEq, Repr

/-- `indexing::Indexed`, restricted to the import/non-import distinction that
`remove_indexed` and `import_step` inspect. -/
inductive Indexed where
  | Import (i : ImportIndexed)
  | Other (tag : Nat)
deriving DecidableEq, Repr

/-- `indexing::Entry`. -/
structure Entry where
  item_meta : ItemMeta
  indexed : Indexed
deriving DecidableEq, Repr

/-- `Entry::item`. -/
def Entry.item (e : Entry) : Item := e.item_meta.item

/-- The query-engine errors reachable from the embedded operations
(`QueryErrorKind` and `compile::error::MetaConflict`). -/
inductive QueryError where
  | MetaConflict (current existing : Meta) (parameters : Hash)
  | MissingMod (item : Item)
  | NotVisibleMod (chain : List Location) (location : Location)
      (visibility : Visibility) (item : Item) (from_ : Item)
  | NotVisible (chain : List Location) (location : Location)
      (visibility : Visibility) (item : Item) (from_ : Item)
  | ImportCycle (path : List ImportStep)
  | ImportRecursionLimit (count : Nat) (path : List ImportStep)
  | AmbiguousItem (item : Item) (locations : List (Location × Item))
deriving DecidableEq, Repr

/-- The parts of `QueryInner` (and the pool's module table) that the embedded
operations read and write: the resolved-meta map keyed by
`(item, parameter hash)`, the indexed map, and the registered modules. -/
structure QueryState where
  meta : List ((Item × Hash) × Meta)
  indexed : List (Item × List Entry)
  modules : List (Item × ModMeta)
deriving DecidableEq, Repr

/-- Lookup in the resolved-meta map. -/
def lookupMeta (st : QueryState) (key : Item × Hash) : Option Meta :=
  (st.meta.find? (fun p => p.1 = key)).map (fun p => p.2)

/-- `pool.module_by_item`. -/
def moduleByItem (st : QueryState) (item : Item) : Option ModMeta :=
  (st.modules.find? (fun p => p.1 = item)).map (fun p => p.2)

/-- Lookup in the indexed map (`BTreeMap::remove` is lookup plus deletion). -/
def lookupIndexed (st : QueryState) (item : Item) : Option (List Entry) :=
  (st.indexed.find? (fun p => p.1 = item)).map (fun p => p.2)

/-- Delete a key from the indexed map. -/
def eraseIndexed (st : QueryState) (item : Item) : QueryState :=
  { st with indexed := st.indexed.filter (fun p => p.1 ≠ item) }

/-- `IMPORT_RECURSION_LIMIT`: the permitted number of import recursions when
constructing a path. -/
def IMPORT_RECURSION_LIMIT : Nat := 128

/-- `Query::insert_meta`.  Returns the call's result together with the state
after the call: on a key conflict the error carries the current and the
existing meta and the map is left untouched; otherwise the meta is recorded.
(The `visitor.register_meta` side effect is external to the state.) -/
def insert_meta (st : QueryState) (m : Meta) :
    Except QueryError Unit × QueryState :=
  match lookupMeta st (m.item_meta.item, m.parameters) with
  | some existing => (.error (.MetaConflict m existing m.parameters), st)
  | none =>
    (.ok (), { st with meta := ((m.item_meta.item, m.parameters), m) :: st.meta })

/-- Whether an entry is a wildcard import. -/
def isWildImport (e : Entry) : Bool :=
  match e.indexed with
  | .Import i => i.wildcard
  | .Other _ => false

/-- Whether an entry is a non-wildcard import. -/
def isConcreteImport (e : Entry) : Bool :=
  match e.indexed with
  | .Import i => !i.wildcard
  | .Other _ => false

/-- The `while let Some(oth) = it.next()` loop of `Query::remove_indexed`:
`cur` is the current best entry, `locations` the locations collected so far,
`rem` the remaining entries.  After the loop, a final wildcard-import winner is
itself ambiguous. -/
def selectEntry (cur : Entry) (locations : List (Location × Item))
    (rem : List Entry) : Except QueryError Entry :=
  match rem with
  | [] =>
    match cur.indexed with
    | .Import ⟨true, _⟩ => .error (.AmbiguousItem cur.item_meta.item locations)
    | _ => .ok cur
  | oth :: rest =>
    let locations := locations ++ [(oth.item_meta.location, oth.item)]
    match cur.indexed, oth.indexed with
    | .Import a, .Import b =>
      if a.wildcard then selectEntry oth locations rest
      else if b.wildcard then selectEntry cur locations rest
      else
        .error (.AmbiguousItem cur.item_meta.item
          (locations ++ rest.map (fun e => (e.item_meta.location, e.item))))
    | _, _ =>
      .error (.AmbiguousItem cur.item_meta.item
        (locations ++ rest.map (fun e => (e.item_meta.location, e.item))))

/-- `Query::remove_indexed`: remove the indexed entries for `item` and select
the single surviving entry, deferring to non-wildcard imports over wildcard
ones and reporting competing entries as ambiguous. -/
def remove_indexed (st : QueryState) (item : Item) :
    Except QueryError (Option Entry × QueryState) :=
  match lookupIndexed st item with
  | none => .ok (none, st)
  | some entries =>
    let st' := eraseIndexed st item
    match entries with
    | [] => .ok (none, st')
    | cur :: rest =>
      match rest with
      | [] => .ok (some cur, st')
      | _ =>
        match selectEntry cur [(cur.item_meta.location, cur.item)] rest with
        | .error e => .error e
        | .ok winner => .ok (some winner, st')

/-- Modelled from the spec: `Item::ancestry` (`item.rs` is not under `src/`)
computes "the common ancestor `C` and the descent path `C → M`": the longest
common prefix of the two paths and the remainder of the second one. -/
def commonPart (a b : Item) : Item :=
  match a, b with
  | x :: xs, y :: ys => if x = y then x :: commonPart xs ys else []
  | _, _ => []

/-- The descent path from the common ancestor to `b` (see `commonPart`). -/
def descent (a b : Item) : List Component :=
  b.drop (commonPart a b).length

/-- The visibility predicates used by `check_access_to`.  Modelled from the
spec: `Visibility::is_visible` and `Visibility::is_visible_inside`
(`compile/visibility.rs` is not under `src/`) decide whether a visibility
"permits access"; their exact decision procedure is left abstract, so every
theorem about `check_access_to` is universally quantified over them. -/
structure VisEnv where
  is_visible : Visibility → Item → Item → Bool
  is_visible_inside : Visibility → Item → Item → Bool

/-- `into_chain` inside `check_access_to`. -/
def intoChain (chain : List ImportStep) : List Location :=
  chain.map (fun c => c.location)

/-- The `for c in &tree` loop of `Query::check_access_to`: walk the descent
path from the common ancestor, requiring each intermediate module to exist and
be visible from the common ancestor. -/
def walkAccess (env : VisEnv) (st : QueryState) (common : Item)
    (chain : List ImportStep) (from_ : Item) :
    Item → List Component → Except QueryError Unit
  | _, [] => .ok ()
  | currentModule, c :: cs =>
    let currentModule := currentModule ++ [c]
    match moduleByItem st currentModule with
    | none => .error (.MissingMod currentModule)
    | some m =>
      if env.is_visible m.visibility common currentModule then
        walkAccess env st common chain from_ currentModule cs
      else
        .error (.NotVisibleMod (intoChain chain) m.location m.visibility
          currentModule from_)

/-- `Query::check_access_to`: check that the item declared in module `module`
with visibility `visibility` is accessible from module `from_` — every module
on the descent path from the common ancestor must be visible from the common
ancestor, and the item's own visibility must admit the access. -/
def check_access_to (env : VisEnv) (st : QueryState) (from_ : Item)
    (item : Item) (module : Item) (location : Location)
    (visibility : Visibility) (chain : List ImportStep) :
    Except QueryError Unit :=
  let common := commonPart from_ module
  let tree := descent from_ module
  match walkAccess env st common chain from_ common tree with
  | .error e => .error e
  | .ok () =>
    if env.is_visible_inside visibility common module then .ok ()
    else .error (.NotVisible (intoChain chain) location visibility item from_)

/-- `Query::import_step`: resolve one import rewriting step for the prefix
`item`, first through the resolved-meta cache, then through the indexed map
(running the visibility check and recording the freshly built meta).  For a
non-import indexed entry, `import_indexed` builds and records its meta (the
build itself is abstracted into `MetaKind.Other`) and reports that no import
applies. -/
def import_step (env : VisEnv) (st : QueryState) (module : Item) (item : Item)
    (chain : List ImportStep) :
    Except QueryError (Option ImportEntry × QueryState) :=
  match lookupMeta st (item, Hash.EMPTY) with
  | some m =>
    match m.kind with
    | .Import entry => .ok (some entry, st)
    | .Other _ => .ok (none, st)
  | none =>
    match remove_indexed st item with
    | .error e => .error e
    | .ok (none, st') => .ok (none, st')
    | .ok (some entry, st') =>
      match check_access_to env st' module item entry.item_meta.module
          entry.item_meta.location entry.item_meta.visibility chain with
      | .error e => .error e
      | .ok () =>
        match entry.indexed with
        | .Import imp =>
          let m : Meta :=
            { item_meta := entry.item_meta, kind := .Import imp.entry,
              parameters := Hash.EMPTY }
          match insert_meta st' m with
          | (.error e, _) => .error e
          | (.ok (), st'') => .ok (some imp.entry, st'')
        | .Other tag =>
          let m : Meta :=
            { item_meta := entry.item_meta, kind := .Other tag,
              parameters := Hash.EMPTY }
          match insert_meta st' m with
          | (.error e, _) => .error e
          | (.ok (), st'') => .ok (none, st'')

/-- The inner `while let Some(c) = it.next()` walk of `Query::import`: extend
the prefix `cur` one component at a time, asking `import_step` at every prefix;
returns the first applicable import entry together with the unconsumed
components. -/
def walkComponents (env : VisEnv) (st : QueryState) (module : Item)
    (chain : List ImportStep) :
    Item → List Component → Except QueryError (QueryState × Option (ImportEntry × List Component))
  | _, [] => .ok (st, none)
  | cur, c :: it =>
    let cur := cur ++ [c]
    match import_step env st module cur chain with
    | .error e => .error e
    | .ok (none, st') => walkComponents env st' module chain cur it
    | .ok (some update, st') => .ok (st', some (update, it))

/-- The `'outer: loop` of `Query::import`, with the remaining permitted
recursions made explicit as `fuel`.  The loop body checks the recursion limit,
walks the current item for an applicable import, records the step on the
chain, detects cycles through the visited set, and rewrites the item against
the import's target.  `fuel` is kept equal to
`IMPORT_RECURSION_LIMIT + 2 - count`, so running out of fuel coincides with
`count > IMPORT_RECURSION_LIMIT` and produces the same
`ImportRecursionLimit` error as the source's check. -/
def importLoop (env : VisEnv) : Nat → QueryState → Item → Item → List Item →
    List ImportStep → Bool → Nat → Except QueryError (Option Item × QueryState)
  | 0, _, _, _, _, path, _, count =>
    .error (.ImportRecursionLimit count path)
  | fuel + 1, st, module, item, visited, path, anyMatched, count =>
    if count > IMPORT_RECURSION_LIMIT then
      .error (.ImportRecursionLimit count path)
    else
      match walkComponents env st module path [] item with
      | .error e => .error e
      | .ok (st', none) =>
        .ok ((if anyMatched then some item else none), st')
      | .ok (st', some (update, rest)) =>
        let path := path ++ [⟨update.location, update.target⟩]
        if item ∈ visited then
          .error (.ImportCycle path)
        else
          importLoop env fuel st' update.module (update.target ++ rest)
            (item :: visited) path true (count + 1)

/-- `Query::import`: resolve `(module, item)` through the registered imports,
starting from an empty visited set and chain with the recursion count at 0. -/
def importResolve (env : VisEnv) (st : QueryState) (module : Item)
    (item : Item) : Except QueryError (Option Item × QueryState) :=
  importLoop env (IMPORT_RECURSION_LIMIT + 2) st module item [] [] false 0

/-- Instrumentation for the termination claim: the number of rewriting
iterations (`continue 'outer` steps) that `importLoop` performs on the same
input. -/
def importLoopRewrites (env : VisEnv) : Nat → QueryState → Item → Item →
    List Item → List ImportStep → Bool → Nat → Nat
  | 0, _, _, _, _, _, _, _ => 0
  | fuel + 1, st, module, item, visited, path, _, count =>
    if count > IMPORT_RECURSION_LIMIT then 0
    else
      match walkComponents env st module path [] item with
      | .error _ => 0
      | .ok (_, none) => 0
      | .ok (st', some (update, rest)) =>
        let path := path ++ [⟨update.location, update.target⟩]
        if item ∈ visited then 0
        else
          importLoopRewrites env fuel st' update.module (update.target ++ rest)
            (item :: visited) path true (count + 1) + 1

/-- The number of import rewriting iterations a full `Query::import` call
performs. -/
def importRewrites (env : VisEnv) (st : QueryState) (module : Item)
    (item : Item) : Nat :=
  importLoopRewrites env (IMPORT_RECURSION_LIMIT + 2) st module item [] [] false 0

end Query

namespace Ast

/-! ## `crates/rune/src/ast.rs`

The token stream abstraction (`parser.rs`, `token.rs` and `source.rs` are not
under `src/`) is modelled from the spec and from the interface the parser
consumes: a parser state is the list of not-yet-consumed tokens; `token_peek`
and `token_peek2` look at the next one or two tokens, `token_next` consumes
one.  All recursive parse functions take an explicit fuel argument; fuel
exhaustion is reported through the dedicated `ParseError.OutOfFuel` value,
which none of the concrete runs below ever reach. -/

/-- `token::Delimiter`. -/
inductive Delimiter where
  | Parenthesis
  | Brace
  | Bracket
deriving DecidableEq, Repr

/-- `token::NumberLiteral`: the radix class of a number token. -/
inductive NumberKind where
  | Binary
  | Octal
  | Hex
  | Decimal
deriving DecidableEq, Repr

/-- `token::Kind`: the token kinds consumed by the `ast.rs` parser. -/
inductive Kind where
  | NumberLiteral (number : NumberKind)
  | StringLiteral (escaped : Bool)
  | Fn
  | If
  | Else
  | Let
  | While
  | Import
  | True_
  | False_
  | Ident
  | Open (delimiter : Delimiter)
  | Close (delimiter : Delimiter)
  | Comma
  | Colon
  | Dot
  | SemiColon
  | Eq
  | Scope
  | Plus
  | Minus
  | Slash
  | Star
  | EqEq
  | Neq
  | Gt
  | Lt
  | Gte
  | Lte
deriving DecidableEq, Repr

/-- `token::Token`: a kind together with its span. -/
structure Token where
  kind : Kind
  span : Span
deriving DecidableEq, Repr

/-- The not-yet-consumed suffix of the token stream (the `Parser` state). -/
abbrev Tokens := List Token

/-- `error::ParseError`, restricted to the variants the embedded parse
functions produce, plus `OutOfFuel` for fuel exhaustion (which stands for no
behaviour of the source and is unreachable with sufficient fuel). -/
inductive ParseError where
  | UnexpectedEof
  | OutOfFuel
  | ExpectedEof
  | ExpectedNumberError (actual : Kind) (span : Span)
  | ExpectedStringError (actual : Kind) (span : Span)
  | ExpectedOperatorError (span : Span) (actual : Kind)
  | ExpectedBoolError (span : Span) (actual : Kind)
  | ExpectedExprError (actual : Kind) (span : Span)
  | TokenMismatch (expected : Kind) (actual : Kind) (span : Span)
deriving DecidableEq, Repr

/-- `error::ResolveError`, restricted to the variants the embedded resolution
functions produce. -/
inductive ResolveError where
  | BadStringEscapeSequence (c : Char) (span : Span)
  | IllegalNumberLiteral (span : Span)
  | BadSlice (span : Span)
deriving DecidableEq, Repr

/-- `NumberLiteral` (the AST node). -/
structure NumberLit where
  number : NumberKind
  token : Token
deriving DecidableEq, Repr

/-- `StringLiteral` (the AST node): the token plus the escaped flag. -/
structure StringLit where
  token : Token
  escaped : Bool
deriving DecidableEq, Repr

/-- `BoolLiteral`. -/
structure BoolLit where
  value : Bool
  token : Token
deriving DecidableEq, Repr

/-- `UnitLiteral`. -/
structure UnitLit where
  openToken : Token
  closeToken : Token
deriving DecidableEq, Repr

/-- `BinOp`: a binary operator with its token. -/
inductive BinOp where
  | Add (token : Token)
  | Sub (token : Token)
  | Div (token : Token)
  | Mul (token : Token)
  | Eq (token : Token)
  | Neq (token : Token)
  | Gt (token : Token)
  | Lt (token : Token)
  | Gte (token : Token)
  | Lte (token : Token)
deriving DecidableEq, Repr

/-- `BinOp::precedence`: get the precedence for the current operator. -/
def BinOp.precedence : BinOp → Nat
  | .Add _ | .Sub _ => 0
  | .Div _ | .Mul _ => 10
  | .Eq _ | .Neq _ => 20
  | .Gt _ | .Lt _ => 30
  | .Gte _ | .Lte _ => 30

/-- `BinOp::from_token`. -/
def BinOp.from_token (token : Token) : Option BinOp :=
  match token.kind with
  | .Plus => some (.Add token)
  | .Minus => some (.Sub token)
  | .Slash => some (.Div token)
  | .Star => some (.Mul token)
  | .EqEq => some (.Eq token)
  | .Neq => some (.Neq token)
  | .Lt => some (.Lt token)
  | .Gt => some (.Gt token)
  | .Lte => some (.Lte token)
  | .Gte => some (.Gte token)
  | _ => none

/-- `Path`: an identifier followed by `::`-separated identifiers (each pair is
the scope token and the identifier token). -/
structure Path where
  first : Token
  rest : List (Token × Token)
deriving DecidableEq, Repr

mutual

/-- `ArrayLiteral`. -/
inductive ArrayLit where
  | mk (openToken : Token) (items : List Expr) (closeToken : Token)

/-- `ObjectLiteral`: each item is key, colon token, value. -/
inductive ObjectLit where
  | mk (openToken : Token) (items : List (StringLit × Token × Expr))
      (closeToken : Token)

/-- `ExprIf`. -/
inductive ExprIf where
  | mk (ifToken : Token) (condition : Expr) (block : Block)
      (expr_else_ifs : List ExprElseIf) (expr_else : Option ExprElse)

/-- `ExprElseIf`. -/
inductive ExprElseIf where
  | mk (elseToken : Token) (ifToken : Token) (condition : Expr) (block : Block)

/-- `ExprElse`. -/
inductive ExprElse where
  | mk (elseToken : Token) (block : Block)

/-- `Expr`: a rune expression. -/
inductive Expr where
  | While (v : While)
  | Let (v : Let)
  | Update (v : Update)
  | IndexSet (v : IndexSet)
  | ExprIf (v : ExprIf)
  | Ident (token : Token)
  | CallFn (v : CallFn)
  | CallInstanceFn (v : CallInstanceFn)
  | ArrayLiteral (v : ArrayLit)
  | ObjectLiteral (v : ObjectLit)
  | NumberLiteral (v : NumberLit)
  | StringLiteral (v : StringLit)
  | ExprGroup (v : ExprGroup)
  | ExprBinary (v : ExprBinary)
  | IndexGet (v : IndexGet)
  | UnitLiteral (v : UnitLit)
  | BoolLiteral (v : BoolLit)

/-- `ExprBinary`: a binary expression. -/
inductive ExprBinary where
  | mk (lhs : Expr) (op : BinOp) (rhs : Expr)

/-- `CallFn`: a free function call `<name>(<args>)`. -/
inductive CallFn where
  | mk (name : Path) (args : FunctionArgs)

/-- `CallInstanceFn`: an instance function call `<instance>.<name>(<args>)`. -/
inductive CallInstanceFn where
  | mk (instanceExpr : Expr) (dot : Token) (name : Token) (args : FunctionArgs)

/-- `FunctionArgs<Expr>`. -/
inductive FunctionArgs where
  | mk (openToken : Token) (items : List Expr) (closeToken : Token)

/-- `Let`. -/
inductive Let where
  | mk (letToken : Token) (name : Token) (eq : Token) (expr : Expr)

/-- `While`. -/
inductive While where
  | mk (whileToken : Token) (condition : Expr) (body : Block)

/-- `Update`. -/
inductive Update where
  | mk (name : Token) (eq : Token) (expr : Expr)

/-- `IndexSet`. -/
inductive IndexSet where
  | mk (target : Token) (open_bracket : Token) (index : Expr)
      (close_bracket : Token) (eq : Token) (value : Expr)

/-- `IndexGet`. -/
inductive IndexGet where
  | mk (target : Token) (open_bracket : Token) (index : Expr)
      (close_bracket : Token)

/-- `ExprGroup`: a parenthesised expression. -/
inductive ExprGroup where
  | mk (openToken : Token) (expr : Expr) (closeToken : Token)

/-- `Block`: expressions followed by an optional trailing expression. -/
inductive Block where
  | mk (openToken : Token) (exprs : List (Expr × Option Token))
      (trailing_expr : Option Expr) (closeToken : Token)

end

/-- `ExprIf::is_empty`: an if expression evaluates to empty when it has no
else branch. -/
def ExprIf.is_empty : ExprIf → Bool
  | .mk _ _ _ _ els => els.isNone

/-- Whether an expression is (at its root) an instance function call. -/
def Expr.isCallInstanceFn : Expr → Bool
  | .CallInstanceFn _ => true
  | _ => false

/-- The receiver of an instance call. -/
def CallInstanceFn.receiver : CallInstanceFn → Expr
  | .mk inst _ _ _ => inst

/-- Modelled from the spec: `Parser::token_peek` — look at the next token
without consuming it. -/
def tokenPeek (ts : Tokens) : Option Token := ts.head?

/-- Modelled from the spec: `Parser::token_peek2` — look at the second
not-yet-consumed token. -/
def tokenPeek2 (ts : Tokens) : Option Token := ts[1]?

/-- Modelled from the spec: `Parser::token_next` — consume the next token,
failing at end of input. -/
def tokenNext (ts : Tokens) : Except ParseError (Token × Tokens) :=
  match ts with
  | [] => .error .UnexpectedEof
  | t :: rest => .ok (t, rest)

/-- Modelled from the spec: `Parser::token_peek_eof` — peek, failing at end of
input. -/
def tokenPeekEof (ts : Tokens) : Except ParseError Token :=
  match ts with
  | [] => .error .UnexpectedEof
  | t :: _ => .ok t

/-- The `Peek` implementation of the single-token helpers generated by
`decl_tokens!`: the next token has exactly the stated kind. -/
def peekKind (k : Kind) (ts : Tokens) : Bool :=
  match tokenPeek ts with
  | some t => t.kind = k
  | none => false

/-- `Parser::peek2` for a single-token helper: the second token has the stated
kind. -/
def peek2Kind (k : Kind) (ts : Tokens) : Bool :=
  match tokenPeek2 ts with
  | some t => t.kind = k
  | none => false

/-- `UnitLiteral`'s `Peek`: an open parenthesis immediately followed by a
close parenthesis. -/
def peekUnitLit (ts : Tokens) : Bool :=
  match tokenPeek ts, tokenPeek2 ts with
  | some t1, some t2 =>
    t1.kind = .Open .Parenthesis && t2.kind = .Close .Parenthesis
  | _, _ => false

/-- The `Parse` implementation generated by `decl_tokens!`: consume one token
of exactly the expected kind. -/
def parseTokenKind (expected : Kind) (ts : Tokens) :
    Except ParseError (Token × Tokens) := do
  let (token, ts) ← tokenNext ts
  if token.kind = expected then .ok (token, ts)
  else .error (.TokenMismatch expected token.kind token.span)

/-- `NumberLiteral`'s `Parse`. -/
def parseNumberLit (ts : Tokens) : Except ParseError (NumberLit × Tokens) := do
  let (token, ts) ← tokenNext ts
  match token.kind with
  | .NumberLiteral number => .ok (⟨number, token⟩, ts)
  | k => .error (.ExpectedNumberError k token.span)

/-- `StringLiteral`'s `Parse`. -/
def parseStringLit (ts : Tokens) : Except ParseError (StringLit × Tokens) := do
  let (token, ts) ← tokenNext ts
  match token.kind with
  | .StringLiteral escaped => .ok (⟨token, escaped⟩, ts)
  | k => .error (.ExpectedStringError k token.span)

/-- `BoolLiteral`'s `Parse`. -/
def parseBoolLit (ts : Tokens) : Except ParseError (BoolLit × Tokens) := do
  let (token, ts) ← tokenNext ts
  match token.kind with
  | .True_ => .ok (⟨true, token⟩, ts)
  | .False_ => .ok (⟨false, token⟩, ts)
  | k => .error (.ExpectedBoolError token.span k)

/-- `UnitLiteral`'s `Parse`. -/
def parseUnitLit (ts : Tokens) : Except ParseError (UnitLit × Tokens) := do
  let (openToken, ts) ← parseTokenKind (.Open .Parenthesis) ts
  let (closeToken, ts) ← parseTokenKind (.Close .Parenthesis) ts
  .ok (⟨openToken, closeToken⟩, ts)

mutual

/-- `Expr`'s `Parse`: parse a primary expression, then climb binary
operators from minimum precedence 0. -/
def parseExpr (fuel : Nat) (ts : Tokens) :
    Except ParseError (Expr × Tokens) :=
  match fuel with
  | 0 => .error .OutOfFuel
  | fuel + 1 => do
    let (lhs, ts) ← parseDefault fuel ts
    parseExprBinary fuel ts lhs 0

/-- `Expr::parse_default`: parse a primary expression with instance calls
enabled. -/
def parseDefault (fuel : Nat) (ts : Tokens) :
    Except ParseError (Expr × Tokens) :=
  match fuel with
  | 0 => .error .OutOfFuel
  | fuel + 1 => parsePrimary fuel ts true

/-- `Expr::parse_in_instance_call`: parse a primary expression with instance
calls disabled. -/
def parseInInstanceCall (fuel : Nat) (ts : Tokens) :
    Except ParseError (Expr × Tokens) :=
  match fuel with
  | 0 => .error .OutOfFuel
  | fuel + 1 => parsePrimary fuel ts false

/-- `Expr::parse_primary` with the `SupportInstanceCall` argument. -/
def parsePrimary (fuel : Nat) (ts : Tokens) (instanceCall : Bool) :
    Except ParseError (Expr × Tokens) :=
  match fuel with
  | 0 => .error .OutOfFuel
  | fuel + 1 => do
    let token ← tokenPeekEof ts
    match token.kind with
    | .While => do
      let (v, ts) ← parseWhile fuel ts
      .ok (.While v, ts)
    | .Let => do
      let (v, ts) ← parseLet fuel ts
      .ok (.Let v, ts)
    | .If => do
      let (v, ts) ← parseExprIf fuel ts
      .ok (.ExprIf v, ts)
    | .NumberLiteral _ => do
      let (v, ts) ← parseNumberLit ts
      .ok (.NumberLiteral v, ts)
    | .StringLiteral _ => do
      let (v, ts) ← parseStringLit ts
      .ok (.StringLiteral v, ts)
    | .Open .Parenthesis =>
      if peekUnitLit ts then do
        let (v, ts) ← parseUnitLit ts
        .ok (.UnitLiteral v, ts)
      else do
        let (v, ts) ← parseExprGroup fuel ts
        .ok (.ExprGroup v, ts)
    | .Open .Bracket => do
      let (v, ts) ← parseArrayLit fuel ts
      .ok (.ArrayLiteral v, ts)
    | .Open .Brace => do
      let (v, ts) ← parseObjectLit fuel ts
      .ok (.ObjectLiteral v, ts)
    | .True_ => do
      let (v, ts) ← parseBoolLit ts
      .ok (.BoolLiteral v, ts)
    | .False_ => do
      let (v, ts) ← parseBoolLit ts
      .ok (.BoolLiteral v, ts)
    | .Ident =>
      match tokenPeek2 ts with
      | some t2 =>
        match t2.kind with
        | .Open .Bracket => do
          let (ig, ts) ← parseIndexGet fuel ts
          if peekKind .Eq ts then
            match ig with
            | .mk target open_bracket index close_bracket => do
              let (eqToken, ts) ← parseTokenKind .Eq ts
              let (value, ts) ← parseExpr fuel ts
              .ok (.IndexSet (.mk target open_bracket index close_bracket
                eqToken value), ts)
          else
            .ok (.IndexGet ig, ts)
        | .Eq => do
          let (v, ts) ← parseUpdate fuel ts
          .ok (.Update v, ts)
        | .Open .Parenthesis => do
          let (v, ts) ← parseCallFn fuel ts
          .ok (.CallFn v, ts)
        | .Scope => do
          let (v, ts) ← parseCallFn fuel ts
          .ok (.CallFn v, ts)
        | .Dot =>
          if instanceCall then do
            let (v, ts) ← parseCallInstanceFn fuel ts
            .ok (.CallInstanceFn v, ts)
          else do
            let (token, ts) ← parseTokenKind .Ident ts
            .ok (.Ident token, ts)
        | _ => do
          let (token, ts) ← parseTokenKind .Ident ts
          .ok (.Ident token, ts)
      | none => do
        let (token, ts) ← parseTokenKind .Ident ts
        .ok (.Ident token, ts)
    | _ => .error (.ExpectedExprError token.kind token.span)

/-- `Expr::parse_expr_binary`: the outer precedence-climbing loop.  Each
iteration consumes an operator whose precedence is at least `minPrecedence`,
parses the right-hand side, lets the inner loop fold in tighter-binding
operators, and folds the result into `lhs`. -/
def parseExprBinary (fuel : Nat) (ts : Tokens) (lhs : Expr)
    (minPrecedence : Nat) : Except ParseError (Expr × Tokens) :=
  match fuel with
  | 0 => .error .OutOfFuel
  | fuel + 1 =>
    match (tokenPeek ts).bind BinOp.from_token with
    | some op =>
      if op.precedence ≥ minPrecedence then do
        let (_, ts) ← tokenNext ts
        let (rhs, ts) ← parseDefault fuel ts
        let (rhs, ts) ← parseBinInner fuel ts rhs op
        parseExprBinary fuel ts (.ExprBinary (.mk lhs op rhs)) minPrecedence
      else .ok (lhs, ts)
    | none => .ok (lhs, ts)

/-- The inner loop of `Expr::parse_expr_binary`: while the lookahead operator
binds strictly tighter than `op`, recursively extend the right-hand side. -/
def parseBinInner (fuel : Nat) (ts : Tokens) (rhs : Expr) (op : BinOp) :
    Except ParseError (Expr × Tokens) :=
  match fuel with
  | 0 => .error .OutOfFuel
  | fuel + 1 =>
    match (tokenPeek ts).bind BinOp.from_token with
    | some lh =>
      if lh.precedence > op.precedence then do
        let (rhs, ts) ← parseExprBinary fuel ts rhs lh.precedence
        parseBinInner fuel ts rhs op
      else .ok (rhs, ts)
    | none => .ok (rhs, ts)

/-- `While`'s `Parse`. -/
def parseWhile (fuel : Nat) (ts : Tokens) :
    Except ParseError (While × Tokens) :=
  match fuel with
  | 0 => .error .OutOfFuel
  | fuel + 1 => do
    let (whileToken, ts) ← parseTokenKind .While ts
    let (condition, ts) ← parseExpr fuel ts
    let (body, ts) ← parseBlock fuel ts
    .ok (.mk whileToken condition body, ts)

/-- `Let`'s `Parse`. -/
def parseLet (fuel : Nat) (ts : Tokens) : Except ParseError (Let × Tokens) :=
  match fuel with
  | 0 => .error .OutOfFuel
  | fuel + 1 => do
    let (letToken, ts) ← parseTokenKind .Let ts
    let (name, ts) ← parseTokenKind .Ident ts
    let (eqToken, ts) ← parseTokenKind .Eq ts
    let (expr, ts) ← parseExpr fuel ts
    .ok (.mk letToken name eqToken expr, ts)

/-- `Update`'s `Parse`. -/
def parseUpdate (fuel : Nat) (ts : Tokens) :
    Except ParseError (Update × Tokens) :=
  match fuel with
  | 0 => .error .OutOfFuel
  | fuel + 1 => do
    let (name, ts) ← parseTokenKind .Ident ts
    let (eqToken, ts) ← parseTokenKind .Eq ts
    let (expr, ts) ← parseExpr fuel ts
    .ok (.mk name eqToken expr, ts)

/-- `IndexGet`'s `Parse`. -/
def parseIndexGet (fuel : Nat) (ts : Tokens) :
    Except ParseError (IndexGet × Tokens) :=
  match fuel with
  | 0 => .error .OutOfFuel
  | fuel + 1 => do
    let (target, ts) ← parseTokenKind .Ident ts
    let (open_bracket, ts) ← parseTokenKind (.Open .Bracket) ts
    let (index, ts) ← parseExpr fuel ts
    let (close_bracket, ts) ← parseTokenKind (.Close .Bracket) ts
    .ok (.mk target open_bracket index close_bracket, ts)

/-- `ExprGroup`'s `Parse`. -/
def parseExprGroup (fuel : Nat) (ts : Tokens) :
    Except ParseError (ExprGroup × Tokens) :=
  match fuel with
  | 0 => .error .OutOfFuel
  | fuel + 1 => do
    let (openToken, ts) ← parseTokenKind (.Open .Parenthesis) ts
    let (expr, ts) ← parseExpr fuel ts
    let (closeToken, ts) ← parseTokenKind (.Close .Parenthesis) ts
    .ok (.mk openToken expr closeToken, ts)

/-- `Path`'s `Parse`. -/
def parsePath (fuel : Nat) (ts : Tokens) : Except ParseError (Path × Tokens) :=
  match fuel with
  | 0 => .error .OutOfFuel
  | fuel + 1 => do
    let (first, ts) ← parseTokenKind .Ident ts
    let (rest, ts) ← parsePathRest fuel ts []
    .ok (⟨first, rest⟩, ts)

/-- The `while parser.peek::<Scope>()` loop of `Path`'s `Parse`. -/
def parsePathRest (fuel : Nat) (ts : Tokens) (acc : List (Token × Token)) :
    Except ParseError (List (Token × Token) × Tokens) :=
  match fuel with
  | 0 => .error .OutOfFuel
  | fuel + 1 =>
    if peekKind .Scope ts then do
      let (scope, ts) ← parseTokenKind .Scope ts
      let (ident, ts) ← parseTokenKind .Ident ts
      parsePathRest fuel ts (acc ++ [(scope, ident)])
    else .ok (acc, ts)

/-- `CallFn`'s `Parse`. -/
def parseCallFn (fuel : Nat) (ts : Tokens) :
    Except ParseError (CallFn × Tokens) :=
  match fuel with
  | 0 => .error .OutOfFuel
  | fuel + 1 => do
    let (name, ts) ← parsePath fuel ts
    let (args, ts) ← parseFunctionArgs fuel ts
    .ok (.mk name args, ts)

/-- `CallInstanceFn`'s `Parse`: the receiver is parsed with
`Expr::parse_in_instance_call`. -/
def parseCallInstanceFn (fuel : Nat) (ts : Tokens) :
    Except ParseError (CallInstanceFn × Tokens) :=
  match fuel with
  | 0 => .error .OutOfFuel
  | fuel + 1 => do
    let (instanceExpr, ts) ← parseInInstanceCall fuel ts
    let (dot, ts) ← parseTokenKind .Dot ts
    let (name, ts) ← parseTokenKind .Ident ts
    let (args, ts) ← parseFunctionArgs fuel ts
    .ok (.mk instanceExpr dot name args, ts)

/-- `FunctionArgs<Expr>`'s `Parse`. -/
def parseFunctionArgs (fuel : Nat) (ts : Tokens) :
    Except ParseError (FunctionArgs × Tokens) :=
  match fuel with
  | 0 => .error .OutOfFuel
  | fuel + 1 => do
    let (openToken, ts) ← parseTokenKind (.Open .Parenthesis) ts
    let (items, ts) ← parseArgItems fuel ts []
    let (closeToken, ts) ← parseTokenKind (.Close .Parenthesis) ts
    .ok (.mk openToken items closeToken, ts)

/-- The item loop of `FunctionArgs`'s `Parse`: while the close parenthesis is
not next, parse an expression; continue only past a comma. -/
def parseArgItems (fuel : Nat) (ts : Tokens) (acc : List Expr) :
    Except ParseError (List Expr × Tokens) :=
  match fuel with
  | 0 => .error .OutOfFuel
  | fuel + 1 =>
    if peekKind (.Close .Parenthesis) ts then .ok (acc, ts)
    else do
      let (item, ts) ← parseExpr fuel ts
      if peekKind .Comma ts then do
        let (_, ts) ← parseTokenKind .Comma ts
        parseArgItems fuel ts (acc ++ [item])
      else .ok (acc ++ [item], ts)

/-- `ArrayLiteral`'s `Parse`. -/
def parseArrayLit (fuel : Nat) (ts : Tokens) :
    Except ParseError (ArrayLit × Tokens) :=
  match fuel with
  | 0 => .error .OutOfFuel
  | fuel + 1 => do
    let (openToken, ts) ← parseTokenKind (.Open .Bracket) ts
    let (items, ts) ← parseArrayItems fuel ts []
    let (closeToken, ts) ← parseTokenKind (.Close .Bracket) ts
    .ok (.mk openToken items closeToken, ts)

/-- The item loop of `ArrayLiteral`'s `Parse`. -/
def parseArrayItems (fuel : Nat) (ts : Tokens) (acc : List Expr) :
    Except ParseError (List Expr × Tokens) :=
  match fuel with
  | 0 => .error .OutOfFuel
  | fuel + 1 =>
    if peekKind (.Close .Bracket) ts then .ok (acc, ts)
    else do
      let (item, ts) ← parseExpr fuel ts
      if peekKind .Comma ts then do
        let (_, ts) ← parseTokenKind .Comma ts
        parseArrayItems fuel ts (acc ++ [item])
      else .ok (acc ++ [item], ts)

/-- `ObjectLiteral`'s `Parse`. -/
def parseObjectLit (fuel : Nat) (ts : Tokens) :
    Except ParseError (ObjectLit × Tokens) :=
  match fuel with
  | 0 => .error .OutOfFuel
  | fuel + 1 => do
    let (openToken, ts) ← parseTokenKind (.Open .Brace) ts
    let (items, ts) ← parseObjectItems fuel ts []
    let (closeToken, ts) ← parseTokenKind (.Close .Brace) ts
    .ok (.mk openToken items closeToken, ts)

/-- The item loop of `ObjectLiteral`'s `Parse`. -/
def parseObjectItems (fuel : Nat) (ts : Tokens)
    (acc : List (StringLit × Token × Expr)) :
    Except ParseError (List (StringLit × Token × Expr) × Tokens) :=
  match fuel with
  | 0 => .error .OutOfFuel
  | fuel + 1 =>
    if peekKind (.Close .Brace) ts then .ok (acc, ts)
    else do
      let (key, ts) ← parseStringLit ts
      let (colon, ts) ← parseTokenKind .Colon ts
      let (expr, ts) ← parseExpr fuel ts
      if peekKind .Comma ts then do
        let (_, ts) ← parseTokenKind .Comma ts
        parseObjectItems fuel ts (acc ++ [(key, colon, expr)])
      else .ok (acc ++ [(key, colon, expr)], ts)

/-- `ExprIf`'s `Parse`. -/
def parseExprIf (fuel : Nat) (ts : Tokens) :
    Except ParseError (ExprIf × Tokens) :=
  match fuel with
  | 0 => .error .OutOfFuel
  | fuel + 1 => do
    let (ifToken, ts) ← parseTokenKind .If ts
    let (condition, ts) ← parseExpr fuel ts
    let (block, ts) ← parseBlock fuel ts
    let (elseIfs, els, ts) ← parseElseTail fuel ts [] none
    .ok (.mk ifToken condition block elseIfs els, ts)

/-- The `while parser.peek::<ElseToken>()` loop of `ExprIf`'s `Parse`. -/
def parseElseTail (fuel : Nat) (ts : Tokens) (elseIfs : List ExprElseIf)
    (els : Option ExprElse) :
    Except ParseError (List ExprElseIf × Option ExprElse × Tokens) :=
  match fuel with
  | 0 => .error .OutOfFuel
  | fuel + 1 =>
    if peekKind .Else ts then
      if peek2Kind .If ts then do
        let (ei, ts) ← parseExprElseIf fuel ts
        parseElseTail fuel ts (elseIfs ++ [ei]) els
      else do
        let (e, ts) ← parseExprElse fuel ts
        parseElseTail fuel ts elseIfs (some e)
    else .ok (elseIfs, els, ts)

/-- `ExprElseIf`'s `Parse`. -/
def parseExprElseIf (fuel : Nat) (ts : Tokens) :
    Except ParseError (ExprElseIf × Tokens) :=
  match fuel with
  | 0 => .error .OutOfFuel
  | fuel + 1 => do
    let (elseToken, ts) ← parseTokenKind .Else ts
    let (ifToken, ts) ← parseTokenKind .If ts
    let (condition, ts) ← parseExpr fuel ts
    let (block, ts) ← parseBlock fuel ts
    .ok (.mk elseToken ifToken condition block, ts)

/-- `ExprElse`'s `Parse`. -/
def parseExprElse (fuel : Nat) (ts : Tokens) :
    Except ParseError (ExprElse × Tokens) :=
  match fuel with
  | 0 => .error .OutOfFuel
  | fuel + 1 => do
    let (elseToken, ts) ← parseTokenKind .Else ts
    let (block, ts) ← parseBlock fuel ts
    .ok (.mk elseToken block, ts)

/-- `Block`'s `Parse`. -/
def parseBlock (fuel : Nat) (ts : Tokens) :
    Except ParseError (Block × Tokens) :=
  match fuel with
  | 0 => .error .OutOfFuel
  | fuel + 1 => do
    let (openToken, ts) ← parseTokenKind (.Open .Brace) ts
    let (exprs, trailing, ts) ← parseBlockBody fuel ts [] false
    let (closeToken, ts) ← parseTokenKind (.Close .Brace) ts
    .ok (.mk openToken exprs trailing closeToken, ts)

/-- The statement loop of `Block`'s `Parse`, with the
`last_expr_with_value` flag threaded through; on normal exit the flag turns
the last collected expression into the trailing one. -/
def parseBlockBody (fuel : Nat) (ts : Tokens)
    (exprs : List (Expr × Option Token)) (lastExprWithValue : Bool) :
    Except ParseError (List (Expr × Option Token) × Option Expr × Tokens) :=
  match fuel with
  | 0 => .error .OutOfFuel
  | fuel + 1 =>
    if peekKind (.Close .Brace) ts then
      if lastExprWithValue then
        .ok (exprs.dropLast, (exprs.getLast?).map Prod.fst, ts)
      else .ok (exprs, none, ts)
    else do
      let (expr, ts) ← parseExpr fuel ts
      if peekKind .SemiColon ts then do
        let (semi, ts) ← parseTokenKind .SemiColon ts
        parseBlockBody fuel ts (exprs ++ [(expr, some semi)]) false
      else
        match expr with
        | .While _ => parseBlockBody fuel ts (exprs ++ [(expr, none)]) false
        | .ExprIf ei =>
          if ei.is_empty then
            parseBlockBody fuel ts (exprs ++ [(expr, none)]) false
          else
            parseBlockBody fuel ts (exprs ++ [(expr, none)]) true
        | _ => .ok (exprs, some expr, ts)

end

/-- `parse_all::<Expr>`: parse a whole token stream as one expression,
requiring the stream to be fully consumed. -/
def parseAllExpr (fuel : Nat) (ts : Tokens) : Except ParseError Expr := do
  let (expr, rest) ← parseExpr fuel ts
  match rest with
  | [] => .ok expr
  | _ => .error .ExpectedEof

/-- `parse_all::<CallInstanceFn>`. -/
def parseAllCallInstanceFn (fuel : Nat) (ts : Tokens) :
    Except ParseError CallInstanceFn := do
  let (v, rest) ← parseCallInstanceFn fuel ts
  match rest with
  | [] => .ok v
  | _ => .error .ExpectedEof

/-- The borrowed/owned distinction of `std::borrow::Cow<str>`. -/
inductive Cow where
  | Borrowed (s : List Char)
  | Owned (s : List Char)
deriving DecidableEq, Repr

/-- Modelled from the spec: `Source::source` (`source.rs` is not under `src/`)
returns the bytes of the half-open span, failing when the span does not lie
within the source. -/
def sourceSlice (src : List Char) (span : Span) :
    Except ResolveError (List Char) :=
  if span.start ≤ span.stop ∧ span.stop ≤ src.length then
    .ok ((src.drop span.start).take (span.stop - span.start))
  else .error (.BadSlice span)

/-- `StringLiteral::parse_escaped`: interpret the escape sequences of an
escaped string literal.  Exactly as in the source, a backslash followed by
`n`, `r` or `"` produces the escaped character; a backslash followed by
anything else (or at end of input, where the offending character defaults to
`'\0'`) is a `BadStringEscapeSequence` error. -/
def parse_escaped (span : Span) : List Char → Except ResolveError (List Char)
  | [] => .ok []
  | '\\' :: c :: rest =>
    if c = 'n' then (fun b => '\n' :: b) <$> parse_escaped span rest
    else if c = 'r' then (fun b => '\r' :: b) <$> parse_escaped span rest
    else if c = '"' then (fun b => '"' :: b) <$> parse_escaped span rest
    else .error (.BadStringEscapeSequence c span)
  | ['\\'] => .error (.BadStringEscapeSequence (Char.ofNat 0) span)
  | c :: rest => (fun b => c :: b) <$> parse_escaped span rest

/-- `StringLiteral`'s `Resolve`: narrow the token span by one byte at each end
(stripping the quotes), then either unescape into an owned string or borrow
the slice directly. -/
def StringLit.resolve (lit : StringLit) (src : List Char) :
    Except ResolveError Cow := do
  let s ← sourceSlice src (lit.token.span.narrow 1)
  if lit.escaped then Cow.Owned <$> parse_escaped lit.token.span s
  else .ok (Cow.Borrowed s)

end Ast

/-! ## Helper lemmas and claim theorems -/

/-- The common behaviour of one registration call: on a hash conflict the
call reports `ConflictingFunction` with the registry untouched, otherwise it
returns the computed hash, the handler becomes retrievable under it, and every
other hash resolves as before. -/
def St.registerBehaves {H : Type} (fns : St.Functions H) (handler : H)
    (hash : St.Hash) (result : Except St.RegisterError St.Hash × St.Functions H) :
    Prop :=
  (St.containsKey fns.functions hash = true →
    result = (.error (.ConflictingFunction hash), fns)) ∧
  (St.containsKey fns.functions hash = false →
    result.1 = .ok hash ∧
    result.2.lookup hash = some handler ∧
    ∀ h' : St.Hash, h' ≠ hash → result.2.lookup h' = fns.lookup h')

theorem St.registerCore {H : Type} (fns : St.Functions H) (hash : St.Hash)
    (handler : H) :
    St.registerBehaves fns handler hash
      (if St.containsKey fns.functions hash then
        (.error (.ConflictingFunction hash), fns)
      else (.ok hash, ⟨(hash, handler) :: fns.functions⟩)) := by
  by_cases hc : St.containsKey fns.functions hash
  · refine ⟨fun _ => by simp [hc], fun h => ?_⟩
    rw [hc] at h
    exact absurd h (by simp)
  · refine ⟨fun h => absurd h hc, fun _ => ?_⟩
    refine ⟨by simp [hc], ?_, ?_⟩
    · simp [hc, St.Functions.lookup, List.find?]
    · intro h' hne
      simp only [hc, if_neg, Bool.false_eq_true, not_false_eq_true]

      simp [St.Functions.lookup, List.find?, Ne.symm hne]

/-- C8: for every host-function registration (`register`,
`register_instance`, `register_async`, `register_raw`, `register_raw_async`),
if a handler is already registered under the computed hash the call returns
`ConflictingFunction` carrying that hash and the registry is unchanged;
otherwise the handler is inserted under the hash and the call returns the
hash. -/
theorem register_conflicting_function_or_insert {H V : Type}
    (global_fn : String → St.Hash) (instance_fn : V → String → St.Hash)
    (fns : St.Functions H) (name : String) (handler : H) (vt : V) :
    St.registerBehaves fns handler (global_fn name)
      (fns.register global_fn name handler) ∧
    St.registerBehaves fns handler (instance_fn vt name)
      (fns.register_instance instance_fn vt name handler) ∧
    St.registerBehaves fns handler (global_fn name)
      (fns.register_async global_fn name handler) ∧
    St.registerBehaves fns handler (global_fn name)
      (fns.register_raw global_fn name handler) ∧
    St.registerBehaves fns handler (global_fn name)
      (fns.register_raw_async global_fn name handler) :=
  ⟨St.registerCore fns (global_fn name) handler,
   St.registerCore fns (instance_fn vt name) handler,
   St.registerCore fns (global_fn name) handler,
   St.registerCore fns (global_fn name) handler,
   St.registerCore fns (global_fn name) handler⟩

/-- Witness for C8 at a concrete registry: registering under free hash 5
succeeds and a second registration under the same hash conflicts and leaves
the registry unchanged. -/
theorem register_conflicting_function_or_insert_witness :
    ((St.Functions.register (H := Nat) (fun _ => 5) ⟨[]⟩ "foo" 3).1 = .ok 5 ∧
      (St.Functions.register (H := Nat) (fun _ => 5) ⟨[]⟩ "foo" 3).2.lookup 5 =
        some 3) ∧
    St.Functions.register (H := Nat) (fun _ => 5) ⟨[(5, 3)]⟩ "foo" 7 =
      (.error (.ConflictingFunction 5), ⟨[(5, 3)]⟩) := by
  have h1 :=
    (register_conflicting_function_or_insert (H := Nat) (V := Nat)
      (fun _ => 5) (fun _ _ => 5) ⟨[]⟩ "foo" 3 0).1.2 (by decide)
  have h2 :=
    (register_conflicting_function_or_insert (H := Nat) (V := Nat)
      (fun _ => 5) (fun _ _ => 5) ⟨[(5, 3)]⟩ "foo" 7 0).1.1 (by decide)
  exact ⟨⟨h1.1, h1.2.1⟩, h2⟩

theorem Loader.pushComps_str (base : Loader.PathC) (names : List String) :
    Loader.pushComps base (names.map .Str) = some (base ++ names) := by
  induction names generalizing base with
  | nil => simp [Loader.pushComps]
  | cons s rest ih =>
    simpa [Loader.pushComps, Loader.pathJoin] using ih (base ++ [s])

/-- C7: for `mod foo;` loaded relative to a source at path `P`, the loader
searches `P/../foo/mod.rn` first and `P/../foo.rn` second; the first of these
that is an existing file is loaded (through `Source::from_path`), and if
neither exists the loader fails with `ModNotFound`. -/
theorem load_search_order {S : Type} (is_file : Loader.PathC → Bool)
    (from_path : Loader.PathC → Option S) (root base0 : Loader.PathC)
    (names : List String) (hroot : Loader.pathPop root = some base0) :
    (is_file (Loader.pathJoin (base0 ++ names) "mod.rn") = true →
      Loader.load is_file from_path root (names.map .Str) =
        match from_path (Loader.pathJoin (base0 ++ names) "mod.rn") with
        | some s => .ok s
        | none => .error (.FileError (Loader.pathJoin (base0 ++ names) "mod.rn"))) ∧
    (is_file (Loader.pathJoin (base0 ++ names) "mod.rn") = false →
      is_file (Loader.withExtension (base0 ++ names) "rn") = true →
      Loader.load is_file from_path root (names.map .Str) =
        match from_path (Loader.withExtension (base0 ++ names) "rn") with
        | some s => .ok s
        | none => .error (.FileError (Loader.withExtension (base0 ++ names) "rn"))) ∧
    (is_file (Loader.pathJoin (base0 ++ names) "mod.rn") = false →
      is_file (Loader.withExtension (base0 ++ names) "rn") = false →
      Loader.load is_file from_path root (names.map .Str) =
        .error (.ModNotFound (base0 ++ names))) := by
  refine ⟨fun h1 => ?_, fun h1 h2 => ?_, fun h1 h2 => ?_⟩ <;>
    simp [Loader.load, hroot, Loader.pushComps_str, List.find?, h1] <;>
    simp [h2]

/-- Witness for C7: with only `src/foo.rn` on disk, loading `mod foo;` from
`src/main.rn` falls through `src/foo/mod.rn` and loads `src/foo.rn`. -/
theorem load_search_order_witness :
    Loader.load (S := Nat) (fun p => p = ["src", "foo.rn"]) (fun _ => some 42)
      ["src", "main.rn"] [.Str "foo"] = .ok 42 := by
  have h :=
    (load_search_order (S := Nat) (fun p => p = ["src", "foo.rn"])
      (fun _ => some 42) ["src", "main.rn"] ["src"] ["foo"] (by rfl)).2.1
      (by decide) (by decide)
  simpa using h

/-- C4: `insert_meta` records the meta and returns `Ok` iff no meta with the
same `(item, parameter hash)` key is recorded; on a conflict it returns
`MetaConflict` carrying the current and the existing meta and leaves the meta
map unchanged; on success the key resolves to the inserted meta and all other
keys resolve as before (so each key resolves to at most one meta). -/
theorem insert_meta_conflict_or_record (st : Query.QueryState) (m : Query.Meta) :
    ((Query.insert_meta st m).1 = .ok () ↔
      Query.lookupMeta st (m.item_meta.item, m.parameters) = none) ∧
    (∀ existing,
      Query.lookupMeta st (m.item_meta.item, m.parameters) = some existing →
      Query.insert_meta st m =
        (.error (.MetaConflict m existing m.parameters), st)) ∧
    (Query.lookupMeta st (m.item_meta.item, m.parameters) = none →
      Query.lookupMeta (Query.insert_meta st m).2
          (m.item_meta.item, m.parameters) = some m ∧
      ∀ key, key ≠ (m.item_meta.item, m.parameters) →
        Query.lookupMeta (Query.insert_meta st m).2 key =
          Query.lookupMeta st key) := by
  refine ⟨?_, ?_, ?_⟩
  · cases hl : Query.lookupMeta st (m.item_meta.item, m.parameters) with
    | none => simp [Query.insert_meta, hl]
    | some existing => simp [Query.insert_meta, hl]
  · intro existing hl
    simp [Query.insert_meta, hl]
  · intro hl
    refine ⟨?_, ?_⟩
    · simp only [Query.insert_meta, hl]
      simp [Query.lookupMeta, List.find?]
    · intro key hk
      simp only [Query.insert_meta, hl]
      simp [Query.lookupMeta, List.find?, Ne.symm hk]

/-- Witness for C4 at a concrete state: inserting a meta into the empty map
succeeds and makes its key resolve to it; re-inserting under the same key is a
`MetaConflict` that leaves the state unchanged. -/
theorem insert_meta_conflict_or_record_witness :
    (Query.insert_meta ⟨[], [], []⟩
        ⟨⟨0, ⟨0, ⟨0, 1⟩⟩, ["a"], [], .Public⟩, .Other 0, 0⟩).1 = .ok () ∧
    (Query.insert_meta
        ⟨[((["a"], 0), ⟨⟨0, ⟨0, ⟨0, 1⟩⟩, ["a"], [], .Public⟩, .Other 0, 0⟩)], [], []⟩
        ⟨⟨1, ⟨0, ⟨2, 3⟩⟩, ["a"], [], .Public⟩, .Other 1, 0⟩) =
      (.error (.MetaConflict
          ⟨⟨1, ⟨0, ⟨2, 3⟩⟩, ["a"], [], .Public⟩, .Other 1, 0⟩
          ⟨⟨0, ⟨0, ⟨0, 1⟩⟩, ["a"], [], .Public⟩, .Other 0, 0⟩ 0),
        ⟨[((["a"], 0), ⟨⟨0, ⟨0, ⟨0, 1⟩⟩, ["a"], [], .Public⟩, .Other 0, 0⟩)], [], []⟩) := by
  constructor
  · exact (insert_meta_conflict_or_record ⟨[], [], []⟩
      ⟨⟨0, ⟨0, ⟨0, 1⟩⟩, ["a"], [], .Public⟩, .Other 0, 0⟩).1.mpr (by rfl)
  · exact (insert_meta_conflict_or_record _ _).2.1
      ⟨⟨0, ⟨0, ⟨0, 1⟩⟩, ["a"], [], .Public⟩, .Other 0, 0⟩ (by rfl)

theorem Query.isWild_iff (x : Query.Entry) :
    Query.isWildImport x = true ↔ ∃ e, x.indexed = .Import ⟨true, e⟩ := by
  cases x with
  | mk im ind =>
    cases ind with
    | Import i =>
      cases i with
      | mk w e => cases w <;> simp [Query.isWildImport]
    | Other t => simp [Query.isWildImport]

theorem Query.isConcrete_iff (x : Query.Entry) :
    Query.isConcreteImport x = true ↔ ∃ e, x.indexed = .Import ⟨false, e⟩ := by
  cases x with
  | mk im ind =>
    cases ind with
    | Import i =>
      cases i with
      | mk w e => cases w <;> simp [Query.isConcreteImport]
    | Other t => simp [Query.isConcreteImport]

theorem Query.selectEntry_all_wild (rem : List Query.Entry) (cur : Query.Entry)
    (locs : List (Location × Query.Item)) (hcur : Query.isConcreteImport cur = true)
    (hrem : ∀ x ∈ rem, Query.isWildImport x = true) :
    Query.selectEntry cur locs rem = .ok cur := by
  obtain ⟨ec, hc⟩ := (Query.isConcrete_iff cur).mp hcur
  induction rem generalizing locs with
  | nil => simp [Query.selectEntry, hc]
  | cons oth rest ih =>
    obtain ⟨eo, ho⟩ := (Query.isWild_iff oth).mp (hrem oth (by simp))
    simp only [Query.selectEntry, hc, ho]
    simpa using ih _ (fun x hx => hrem x (List.mem_cons_of_mem _ hx))

theorem Query.selectEntry_wild_chain (ws : List Query.Entry)
    (cur e : Query.Entry) (ws2 : List Query.Entry)
    (locs : List (Location × Query.Item)) (hcur : Query.isWildImport cur = true)
    (hws : ∀ x ∈ ws, Query.isWildImport x = true)
    (he : Query.isConcreteImport e = true)
    (hws2 : ∀ x ∈ ws2, Query.isWildImport x = true) :
    Query.selectEntry cur locs (ws ++ e :: ws2) = .ok e := by
  induction ws generalizing cur locs with
  | nil =>
    obtain ⟨ec, hc⟩ := (Query.isWild_iff cur).mp hcur
    obtain ⟨ee, hee⟩ := (Query.isConcrete_iff e).mp he
    simp only [List.nil_append, Query.selectEntry, hc, hee, if_true]
    exact Query.selectEntry_all_wild ws2 e _ he hws2
  | cons w ws' ih =>
    obtain ⟨ec, hc⟩ := (Query.isWild_iff cur).mp hcur
    obtain ⟨ew, hw⟩ := (Query.isWild_iff w).mp (hws w (by simp))
    simp only [List.cons_append, Query.selectEntry, hc, hw, if_true]
    exact ih w _ (Query.isWild_iff w |>.mpr ⟨ew, hw⟩)
      (fun x hx => hws x (by simp [hx]))

theorem Query.selectEntry_ambiguous (rem : List Query.Entry)
    (cur : Query.Entry) (locs : List (Location × Query.Item))
    (hall : ∀ x ∈ cur :: rem,
      (Query.isWildImport x || Query.isConcreteImport x) = true)
    (hcount : 2 ≤ (cur :: rem).countP (fun x => Query.isConcreteImport x)) :
    ∃ it0, Query.selectEntry cur locs rem =
      .error (.AmbiguousItem it0
        (locs ++ rem.map (fun x => (x.item_meta.location, x.item)))) := by
  induction rem generalizing cur locs with
  | nil =>
    exfalso
    rw [List.countP_cons, List.countP_nil] at hcount
    cases hw : Query.isConcreteImport cur <;> rw [hw] at hcount <;> simp at hcount
  | cons oth rest ih =>
    have hcuri := hall cur (by simp)
    have hothi := hall oth (by simp)
    have himp : ∀ z : Query.Entry,
        (Query.isWildImport z || Query.isConcreteImport z) = true →
        ∃ w e, z.indexed = .Import ⟨w, e⟩ := by
      intro z hz
      rcases Bool.or_eq_true _ _ |>.mp hz with h | h
      · obtain ⟨e, he⟩ := (Query.isWild_iff z).mp h
        exact ⟨true, e, he⟩
      · obtain ⟨e, he⟩ := (Query.isConcrete_iff z).mp h
        exact ⟨false, e, he⟩
    obtain ⟨wa, ea, ha⟩ := himp cur hcuri
    obtain ⟨wb, eb, hb⟩ := himp oth hothi
    have hcurconc : Query.isConcreteImport cur = !wa := by
      simp [Query.isConcreteImport, ha]
    have hothconc : Query.isConcreteImport oth = !wb := by
      simp [Query.isConcreteImport, hb]
    cases wa with
    | true =>
      -- The current best is a wildcard import: it is replaced by `oth`.
      have hcnt : 2 ≤ (oth :: rest).countP (fun x => Query.isConcreteImport x) := by
        rw [List.countP_cons (fun x => Query.isConcreteImport x) cur] at hcount
        simp only [hcurconc] at hcount
        simpa using hcount
      obtain ⟨it0, hsel⟩ := ih oth (locs ++ [(oth.item_meta.location, oth.item)])
        (fun x hx => hall x (List.mem_cons_of_mem _ hx)) hcnt
      refine ⟨it0, ?_⟩
      simp only [Query.selectEntry, ha, hb]
      rw [hsel]
      simp
    | false =>
      cases wb with
      | true =>
        -- `oth` is a wildcard import: keep the current best.
        have hcnt : 2 ≤ (cur :: rest).countP (fun x => Query.isConcreteImport x) := by
          have hc1 : Query.isConcreteImport cur = true := by simp [hcurconc]
          have ho0 : Query.isConcreteImport oth = false := by simp [hothconc]
          rw [List.countP_cons (fun x => Query.isConcreteImport x) cur,
            List.countP_cons (fun x => Query.isConcreteImport x) oth] at hcount
          rw [List.countP_cons (fun x => Query.isConcreteImport x) cur]
          simp only [hc1, ho0] at hcount ⊢
          simp at hcount ⊢
          exact hcount
        obtain ⟨it0, hsel⟩ := ih cur (locs ++ [(oth.item_meta.location, oth.item)])
          (fun x hx => hall x (by
            rcases List.mem_cons.mp hx with h | h
            · exact h ▸ List.mem_cons_self _ _
            · exact List.mem_cons_of_mem _ (List.mem_cons_of_mem _ h))) hcnt
        refine ⟨it0, ?_⟩
        simp only [Query.selectEntry, ha, hb]
        rw [hsel]
        simp
      | false =>
        -- Two competing non-wildcard imports: ambiguous.
        refine ⟨cur.item_meta.item, ?_⟩
        simp [Query.selectEntry, ha, hb]

/-- C5: when several indexed entries compete for the same item name, if
exactly one is a non-wildcard import and the others are wildcard imports,
`remove_indexed` selects the non-wildcard entry; when at least two
non-wildcard imports compete, it fails with `AmbiguousItem` listing every
competing entry's location. -/
theorem remove_indexed_wildcard_selection (st : Query.QueryState)
    (item : Query.Item) :
    (∀ ws1 e ws2, Query.lookupIndexed st item = some (ws1 ++ e :: ws2) →
      (∀ x ∈ ws1, Query.isWildImport x = true) →
      (∀ x ∈ ws2, Query.isWildImport x = true) →
      Query.isConcreteImport e = true →
      Query.remove_indexed st item = .ok (some e, Query.eraseIndexed st item)) ∧
    (∀ entries, Query.lookupIndexed st item = some entries →
      (∀ x ∈ entries,
        (Query.isWildImport x || Query.isConcreteImport x) = true) →
      2 ≤ entries.countP (fun x => Query.isConcreteImport x) →
      ∃ it0, Query.remove_indexed st item =
        .error (.AmbiguousItem it0
          (entries.map (fun x => (x.item_meta.location, x.item))))) := by
  constructor
  · intro ws1 e ws2 hl hws1 hws2 he
    cases ws1 with
    | nil =>
      cases ws2 with
      | nil => simp [Query.remove_indexed, hl]
      | cons a l =>
        simp only [List.nil_append] at hl
        simp only [Query.remove_indexed, hl]
        rw [Query.selectEntry_all_wild (a :: l) e _ he hws2]
    | cons w ws1' =>
      simp only [List.cons_append] at hl
      have hrest : ws1' ++ e :: ws2 ≠ [] := by simp
      simp only [Query.remove_indexed, hl]
      cases hr : ws1' ++ e :: ws2 with
      | nil => exact absurd hr hrest
      | cons a l =>
        rw [← hr]
        rw [Query.selectEntry_wild_chain ws1' w e ws2 _
          (hws1 w (by simp)) (fun x hx => hws1 x (by simp [hx])) he hws2]
  · intro entries hl hall hcount
    cases entries with
    | nil =>
      rw [List.countP_nil] at hcount
      exact absurd hcount (by decide)
    | cons cur rest =>
      cases rest with
      | nil =>
        exfalso
        rw [List.countP_cons, List.countP_nil] at hcount
        cases hw : Query.isConcreteImport cur <;> rw [hw] at hcount <;>
          simp at hcount
      | cons a l =>
        obtain ⟨it0, hsel⟩ := Query.selectEntry_ambiguous (a :: l) cur
          [(cur.item_meta.location, cur.item)] hall hcount
        refine ⟨it0, ?_⟩
        simp only [Query.remove_indexed, hl]
        rw [hsel]
        simp

/-- Witness for C5 at concrete entry lists: a non-wildcard import surrounded
by wildcard imports wins, and two non-wildcard imports are ambiguous with
both locations listed. -/
theorem remove_indexed_wildcard_selection_witness :
    Query.remove_indexed
        ⟨[], [(["n"],
          [⟨⟨0, ⟨0, ⟨0, 1⟩⟩, ["n"], [], .Public⟩, .Import ⟨true, ⟨⟨0, ⟨0, 1⟩⟩, ["w"], []⟩⟩⟩,
           ⟨⟨1, ⟨0, ⟨2, 3⟩⟩, ["n"], [], .Public⟩, .Import ⟨false, ⟨⟨0, ⟨2, 3⟩⟩, ["t"], []⟩⟩⟩])], []⟩
        ["n"] =
      .ok (some ⟨⟨1, ⟨0, ⟨2, 3⟩⟩, ["n"], [], .Public⟩,
          .Import ⟨false, ⟨⟨0, ⟨2, 3⟩⟩, ["t"], []⟩⟩⟩,
        Query.eraseIndexed
          ⟨[], [(["n"],
            [⟨⟨0, ⟨0, ⟨0, 1⟩⟩, ["n"], [], .Public⟩, .Import ⟨true, ⟨⟨0, ⟨0, 1⟩⟩, ["w"], []⟩⟩⟩,
             ⟨⟨1, ⟨0, ⟨2, 3⟩⟩, ["n"], [], .Public⟩, .Import ⟨false, ⟨⟨0, ⟨2, 3⟩⟩, ["t"], []⟩⟩⟩])], []⟩
          ["n"]) ∧
    (∃ it0, Query.remove_indexed
        ⟨[], [(["n"],
          [⟨⟨0, ⟨0, ⟨0, 1⟩⟩, ["n"], [], .Public⟩, .Import ⟨false, ⟨⟨0, ⟨0, 1⟩⟩, ["u"], []⟩⟩⟩,
           ⟨⟨1, ⟨0, ⟨2, 3⟩⟩, ["n"], [], .Public⟩, .Import ⟨false, ⟨⟨0, ⟨2, 3⟩⟩, ["v"], []⟩⟩⟩])], []⟩
        ["n"] =
      .error (.AmbiguousItem it0
        [(⟨0, ⟨0, 1⟩⟩, ["n"]), (⟨0, ⟨2, 3⟩⟩, ["n"])])) := by
  constructor
  · exact (remove_indexed_wildcard_selection _ ["n"]).1
      [⟨⟨0, ⟨0, ⟨0, 1⟩⟩, ["n"], [], .Public⟩, .Import ⟨true, ⟨⟨0, ⟨0, 1⟩⟩, ["w"], []⟩⟩⟩]
      ⟨⟨1, ⟨0, ⟨2, 3⟩⟩, ["n"], [], .Public⟩, .Import ⟨false, ⟨⟨0, ⟨2, 3⟩⟩, ["t"], []⟩⟩⟩
      [] (by rfl) (by decide) (by decide) (by decide)
  · exact (remove_indexed_wildcard_selection _ ["n"]).2
      [⟨⟨0, ⟨0, ⟨0, 1⟩⟩, ["n"], [], .Public⟩, .Import ⟨false, ⟨⟨0, ⟨0, 1⟩⟩, ["u"], []⟩⟩⟩,
       ⟨⟨1, ⟨0, ⟨2, 3⟩⟩, ["n"], [], .Public⟩, .Import ⟨false, ⟨⟨0, ⟨2, 3⟩⟩, ["v"], []⟩⟩⟩]
      (by rfl) (by decide) (by decide)

/-- The modules visited by the descent walk: all cumulative extensions of
`common` along the descent path. -/
def Query.descentChain (common : Query.Item) :
    List Query.Component → List Query.Item
  | [] => []
  | c :: cs => (common ++ [c]) :: Query.descentChain (common ++ [c]) cs

theorem Query.walkAccess_spec (env : Query.VisEnv) (st : Query.QueryState)
    (common : Query.Item) (chain : List Query.ImportStep)
    (from_ : Query.Item) (cs : List Query.Component) (cur : Query.Item)
    (hpres : ∀ p ∈ Query.descentChain cur cs,
      (Query.moduleByItem st p).isSome = true) :
    ((∀ p ∈ Query.descentChain cur cs, ∀ m, Query.moduleByItem st p = some m →
        env.is_visible m.visibility common p = true) →
      Query.walkAccess env st common chain from_ cur cs = .ok ()) ∧
    ((∃ p ∈ Query.descentChain cur cs, ∃ m, Query.moduleByItem st p = some m ∧
        env.is_visible m.visibility common p = false) →
      ∃ loc vis p, Query.walkAccess env st common chain from_ cur cs =
        .error (.NotVisibleMod (Query.intoChain chain) loc vis p from_)) := by
  induction cs generalizing cur with
  | nil =>
    refine ⟨fun _ => rfl, fun hex => ?_⟩
    obtain ⟨p, hp, _⟩ := hex
    simp [Query.descentChain] at hp
  | cons c cs' ih =>
    have hpcur : (Query.moduleByItem st (cur ++ [c])).isSome = true :=
      hpres _ (by simp [Query.descentChain])
    obtain ⟨m, hm⟩ := Option.isSome_iff_exists.mp hpcur
    cases hv : env.is_visible m.visibility common (cur ++ [c]) with
    | true =>
      have ih' := ih (cur ++ [c])
        (fun p hp => hpres p (by simp [Query.descentChain, hp]))
      constructor
      · intro hall
        simp only [Query.walkAccess, hm, hv, if_true]
        exact ih'.1 (fun p hp m' hm' =>
          hall p (by simp [Query.descentChain, hp]) m' hm')
      · intro hex
        obtain ⟨p, hp, m', hm', hnv⟩ := hex
        simp only [Query.descentChain, List.mem_cons] at hp
        rcases hp with rfl | hp
        · rw [hm'] at hm
          cases hm
          rw [hv] at hnv
          cases hnv
        · simp only [Query.walkAccess, hm, hv, if_true]
          exact ih'.2 ⟨p, hp, m', hm', hnv⟩
    | false =>
      constructor
      · intro hall
        have := hall (cur ++ [c]) (by simp [Query.descentChain]) m hm
        rw [hv] at this
        cases this
      · intro _
        refine ⟨m.location, m.visibility, cur ++ [c], ?_⟩
        simp [Query.walkAccess, hm, hv]

/-- C1: `check_access_to` computes the common ancestor of the requesting and
the target module and walks the descent path towards the target: when every
module on that path is registered, the check succeeds iff every one of them is
visible from the common ancestor and the item's own visibility admits the
access; a non-visible intermediate module yields `NotVisibleMod` carrying
the chain of steps, and an inadmissible item visibility yields `NotVisible`
carrying that same chain. -/
theorem check_access_to_ancestry (env : Query.VisEnv) (st : Query.QueryState)
    (from_ item module : Query.Item) (location : Location)
    (visibility : Query.Visibility) (chain : List Query.ImportStep)
    (hpres : ∀ p ∈ Query.descentChain (Query.commonPart from_ module)
        (Query.descent from_ module),
      (Query.moduleByItem st p).isSome = true) :
    ((∀ p ∈ Query.descentChain (Query.commonPart from_ module)
        (Query.descent from_ module),
      ∀ m, Query.moduleByItem st p = some m →
        env.is_visible m.visibility (Query.commonPart from_ module) p = true) →
      ((env.is_visible_inside visibility (Query.commonPart from_ module)
          module = true →
        Query.check_access_to env st from_ item module location visibility
          chain = .ok ()) ∧
       (env.is_visible_inside visibility (Query.commonPart from_ module)
          module = false →
        Query.check_access_to env st from_ item module location visibility
          chain = .error (.NotVisible (Query.intoChain chain) location
            visibility item from_)))) ∧
    ((∃ p ∈ Query.descentChain (Query.commonPart from_ module)
        (Query.descent from_ module),
      ∃ m, Query.moduleByItem st p = some m ∧
        env.is_visible m.visibility (Query.commonPart from_ module) p = false) →
      ∃ loc vis p, Query.check_access_to env st from_ item module location
          visibility chain =
        .error (.NotVisibleMod (Query.intoChain chain) loc vis p from_)) := by
  have hwalk := Query.walkAccess_spec env st (Query.commonPart from_ module)
    chain from_ (Query.descent from_ module) (Query.commonPart from_ module)
    hpres
  constructor
  · intro hall
    have hok := hwalk.1 hall
    constructor
    · intro hin
      simp [Query.check_access_to, hok, hin]
    · intro hin
      simp [Query.check_access_to, hok, hin]
  · intro hex
    obtain ⟨loc, vis, p, herr⟩ := hwalk.2 hex
    refine ⟨loc, vis, p, ?_⟩
    simp [Query.check_access_to, herr]

/-- Witness for C1 at a concrete module tree: with modules `m` and `m::n`
registered and an always-permissive visibility environment, access from
module `a` to an item of module `m::n` passes the two-step descent walk. -/
theorem check_access_to_ancestry_witness :
    Query.check_access_to ⟨fun _ _ _ => true, fun _ _ _ => true⟩
      ⟨[], [], [(["m"], ⟨⟨0, ⟨0, 1⟩⟩, ["m"], .Public, some []⟩),
        (["m", "n"], ⟨⟨0, ⟨2, 3⟩⟩, ["m", "n"], .Public, some ["m"]⟩)]⟩
      ["a"] ["m", "n", "f"] ["m", "n"] ⟨0, ⟨4, 5⟩⟩ .Public [] = .ok () := by
  exact ((check_access_to_ancestry ⟨fun _ _ _ => true, fun _ _ _ => true⟩
    ⟨[], [], [(["m"], ⟨⟨0, ⟨0, 1⟩⟩, ["m"], .Public, some []⟩),
      (["m", "n"], ⟨⟨0, ⟨2, 3⟩⟩, ["m", "n"], .Public, some ["m"]⟩)]⟩
    ["a"] ["m", "n", "f"] ["m", "n"] ⟨0, ⟨4, 5⟩⟩ .Public []
    (by decide)).1 (fun p hp m hm => rfl)).1 rfl

theorem Query.importLoop_limit (env : Query.VisEnv) (fuel : Nat)
    (st : Query.QueryState) (module item : Query.Item)
    (visited : List Query.Item) (path : List Query.ImportStep) (am : Bool)
    (count : Nat) (hc : count > Query.IMPORT_RECURSION_LIMIT) :
    Query.importLoop env (fuel + 1) st module item visited path am count =
      .error (.ImportRecursionLimit count path) := by
  simp [Query.importLoop, hc]

theorem Query.importLoop_break (env : Query.VisEnv) (fuel : Nat)
    (st st' : Query.QueryState) (module item : Query.Item)
    (visited : List Query.Item) (path : List Query.ImportStep) (am : Bool)
    (count : Nat) (hc : ¬count > Query.IMPORT_RECURSION_LIMIT)
    (hw : Query.walkComponents env st module path [] item = .ok (st', none)) :
    Query.importLoop env (fuel + 1) st module item visited path am count =
      .ok ((if am then some item else none), st') := by
  simp [Query.importLoop, hc, hw]

theorem Query.importLoop_cycle (env : Query.VisEnv) (fuel : Nat)
    (st st' : Query.QueryState) (module item : Query.Item)
    (visited : List Query.Item) (path : List Query.ImportStep) (am : Bool)
    (count : Nat) (update : Query.ImportEntry) (rest : List Query.Component)
    (hc : ¬count > Query.IMPORT_RECURSION_LIMIT)
    (hw : Query.walkComponents env st module path [] item =
      .ok (st', some (update, rest)))
    (hv : item ∈ visited) :
    Query.importLoop env (fuel + 1) st module item visited path am count =
      .error (.ImportCycle (path ++ [⟨update.location, update.target⟩])) := by
  simp [Query.importLoop, hc, hw, hv]

theorem Query.importLoop_rewrite (env : Query.VisEnv) (fuel : Nat)
    (st st' : Query.QueryState) (module item : Query.Item)
    (visited : List Query.Item) (path : List Query.ImportStep) (am : Bool)
    (count : Nat) (update : Query.ImportEntry) (rest : List Query.Component)
    (hc : ¬count > Query.IMPORT_RECURSION_LIMIT)
    (hw : Query.walkComponents env st module path [] item =
      .ok (st', some (update, rest)))
    (hv : item ∉ visited) :
    Query.importLoop env (fuel + 1) st module item visited path am count =
      Query.importLoop env fuel st' update.module (update.target ++ rest)
        (item :: visited) (path ++ [⟨update.location, update.target⟩]) true
        (count + 1) := by
  simp [Query.importLoop, hc, hw, hv]

theorem Query.importLoop_error (env : Query.VisEnv) (fuel : Nat)
    (st : Query.QueryState) (module item : Query.Item)
    (visited : List Query.Item) (path : List Query.ImportStep) (am : Bool)
    (count : Nat) (e : Query.QueryError)
    (hc : ¬count > Query.IMPORT_RECURSION_LIMIT)
    (hw : Query.walkComponents env st module path [] item = .error e) :
    Query.importLoop env (fuel + 1) st module item visited path am count =
      .error e := by
  simp [Query.importLoop, hc, hw]

theorem Query.importLoop_ok_bound (env : Query.VisEnv) :
    ∀ fuel (st : Query.QueryState) (module item : Query.Item)
      (visited : List Query.Item) (path : List Query.ImportStep) (am : Bool)
      (count : Nat) r,
    Query.importLoop env fuel st module item visited path am count = .ok r →
    count + Query.importLoopRewrites env fuel st module item visited path am
        count ≤ Query.IMPORT_RECURSION_LIMIT := by
  intro fuel
  induction fuel with
  | zero =>
    intro st module item visited path am count r h
    simp [Query.importLoop] at h
  | succ fuel ih =>
    intro st module item visited path am count r h
    by_cases hc : count > Query.IMPORT_RECURSION_LIMIT
    · rw [Query.importLoop_limit env fuel st module item visited path am count
        hc] at h
      cases h
    · cases hw : Query.walkComponents env st module path [] item with
      | error e =>
        rw [Query.importLoop_error env fuel st module item visited path am
          count e hc hw] at h
        cases h
      | ok p =>
        obtain ⟨st', upd⟩ := p
        cases upd with
        | none =>
          have hrw : Query.importLoopRewrites env (fuel + 1) st module item
              visited path am count = 0 := by
            simp [Query.importLoopRewrites, hc, hw]
          rw [hrw]
          omega
        | some pr =>
          obtain ⟨update, rest⟩ := pr
          by_cases hv : item ∈ visited
          · rw [Query.importLoop_cycle env fuel st st' module item visited path
              am count update rest hc hw hv] at h
            cases h
          · rw [Query.importLoop_rewrite env fuel st st' module item visited
              path am count update rest hc hw hv] at h
            have hrw : Query.importLoopRewrites env (fuel + 1) st module item
                visited path am count =
                Query.importLoopRewrites env fuel st' update.module
                  (update.target ++ rest) (item :: visited)
                  (path ++ [⟨update.location, update.target⟩]) true
                  (count + 1) + 1 := by
              simp [Query.importLoopRewrites, hc, hw, hv]
            rw [hrw]
            have hb := ih st' update.module (update.target ++ rest)
              (item :: visited) (path ++ [⟨update.location, update.target⟩])
              true (count + 1) r h
            omega

/-- C2: import resolution is a total function of its fuelled loop: a
successful resolution performs at most `IMPORT_RECURSION_LIMIT = 128`
rewriting iterations; a loop iteration whose recursion count exceeds the
limit fails with the import-recursion-limit error; and a rewriting step whose
item is already in the visited set fails with `ImportCycle` carrying the full
chain of import steps including the step just taken. -/
theorem import_terminates_within_limit (env : Query.VisEnv) :
    (∀ (st : Query.QueryState) (module item : Query.Item) r st',
      Query.importResolve env st module item = .ok (r, st') →
      Query.importRewrites env st module item ≤
        Query.IMPORT_RECURSION_LIMIT) ∧
    (∀ fuel (st : Query.QueryState) (module item : Query.Item) visited path am
      count, count > Query.IMPORT_RECURSION_LIMIT →
      Query.importLoop env (fuel + 1) st module item visited path am count =
        .error (.ImportRecursionLimit count path)) ∧
    (∀ fuel (st st' : Query.QueryState) (module item : Query.Item) visited
      path am count update rest,
      count ≤ Query.IMPORT_RECURSION_LIMIT →
      Query.walkComponents env st module path [] item =
        .ok (st', some (update, rest)) →
      item ∈ visited →
      Query.importLoop env (fuel + 1) st module item visited path am count =
        .error (.ImportCycle (path ++ [⟨update.location, update.target⟩]))) := by
  refine ⟨?_, ?_, ?_⟩
  · intro st module item r st' h
    have := Query.importLoop_ok_bound env (Query.IMPORT_RECURSION_LIMIT + 2)
      st module item [] [] false 0 (r, st') h
    simpa [Query.importRewrites] using this
  · intro fuel st module item visited path am count hc
    exact Query.importLoop_limit env fuel st module item visited path am count
      hc
  · intro fuel st st' module item visited path am count update rest hc hw hv
    exact Query.importLoop_cycle env fuel st st' module item visited path am
      count update rest (by omega) hw hv

/-- Witness for C2 at a concrete query state with one import `x → y`:
resolution succeeds within the rewrite bound, a count beyond 128 reports the
recursion limit, and a visited item reports `ImportCycle` with the chain. -/
theorem import_terminates_within_limit_witness :
    (∃ st', Query.importResolve ⟨fun _ _ _ => true, fun _ _ _ => true⟩
      ⟨[], [(["x"], [⟨⟨0, ⟨0, ⟨0, 1⟩⟩, ["x"], [], .Public⟩,
        .Import ⟨false, ⟨⟨0, ⟨0, 1⟩⟩, ["y"], []⟩⟩⟩])], []⟩
      [] ["x"] = .ok (some ["y"], st')) ∧
    Query.importRewrites ⟨fun _ _ _ => true, fun _ _ _ => true⟩
      ⟨[], [(["x"], [⟨⟨0, ⟨0, ⟨0, 1⟩⟩, ["x"], [], .Public⟩,
        .Import ⟨false, ⟨⟨0, ⟨0, 1⟩⟩, ["y"], []⟩⟩⟩])], []⟩
      [] ["x"] ≤ Query.IMPORT_RECURSION_LIMIT ∧
    Query.importLoop ⟨fun _ _ _ => true, fun _ _ _ => true⟩ 1
      ⟨[], [], []⟩ [] ["x"] [] [] false 129 =
      .error (.ImportRecursionLimit 129 []) ∧
    Query.importLoop ⟨fun _ _ _ => true, fun _ _ _ => true⟩ 1
      ⟨[], [(["x"], [⟨⟨0, ⟨0, ⟨0, 1⟩⟩, ["x"], [], .Public⟩,
        .Import ⟨false, ⟨⟨0, ⟨0, 1⟩⟩, ["y"], []⟩⟩⟩])], []⟩
      [] ["x"] [["x"]] [] false 0 =
      .error (.ImportCycle [⟨⟨0, ⟨0, 1⟩⟩, ["y"]⟩]) := by
  refine ⟨⟨_, rfl⟩, ?_, ?_, ?_⟩
  · exact (import_terminates_within_limit
      ⟨fun _ _ _ => true, fun _ _ _ => true⟩).1 _ [] ["x"] (some ["y"]) _ rfl
  · exact (import_terminates_within_limit
      ⟨fun _ _ _ => true, fun _ _ _ => true⟩).2.1 0 ⟨[], [], []⟩ [] ["x"] [] []
      false 129 (by decide)
  · exact (import_terminates_within_limit
      ⟨fun _ _ _ => true, fun _ _ _ => true⟩).2.2 0
      ⟨[], [(["x"], [⟨⟨0, ⟨0, ⟨0, 1⟩⟩, ["x"], [], .Public⟩,
        .Import ⟨false, ⟨⟨0, ⟨0, 1⟩⟩, ["y"], []⟩⟩⟩])], []⟩ _ [] ["x"] [["x"]]
      [] false 0 _ [] (by decide) rfl (by simp)

theorem Ast.bindOk {α β : Type} (x : Except Ast.ParseError α)
    (f : α → Except Ast.ParseError β) (b : β) (h : x >>= f = .ok b) :
    ∃ a, x = .ok a ∧ f a = .ok b := by
  cases x with
  | error e => exact absurd h (by simp [Bind.bind, Except.bind])
  | ok a => exact ⟨a, rfl, by simpa [Bind.bind, Except.bind] using h⟩

theorem Ast.parsePrimary_no_instance (fuel : Nat) (ts : Ast.Tokens)
    (e : Ast.Expr) (ts' : Ast.Tokens)
    (h : Ast.parsePrimary fuel ts false = .ok (e, ts')) :
    e.isCallInstanceFn = false := by
  match fuel with
  | 0 => exact absurd h (by simp [Ast.parsePrimary])
  | fuel + 1 =>
    simp only [Ast.parsePrimary] at h
    obtain ⟨t, ht, h⟩ := Ast.bindOk _ _ _ h
    repeat'
      first
      | (obtain ⟨_, _, h⟩ := Ast.bindOk _ _ _ h)
      | (rw [if_neg (by decide : ¬(false = true))] at h)
      | (split at h)
    all_goals
      first
      | exact Except.noConfusion h
      | (simp only [Except.ok.injEq, Prod.mk.injEq] at h
         rw [← h.1]
         rfl)

theorem Ast.parseInInstanceCall_no_instance (fuel : Nat) (ts : Ast.Tokens)
    (e : Ast.Expr) (ts' : Ast.Tokens)
    (h : Ast.parseInInstanceCall fuel ts = .ok (e, ts')) :
    e.isCallInstanceFn = false := by
  match fuel with
  | 0 => exact absurd h (by simp [Ast.parseInInstanceCall])
  | fuel + 1 =>
    simp only [Ast.parseInInstanceCall] at h
    exact Ast.parsePrimary_no_instance fuel ts e ts' h

/-- C9: the receiver of an instance-call expression is parsed with instance
calls disabled: a successfully parsed primary expression with instance calls
disabled is never an instance call, every successfully parsed
`CallInstanceFn` has a receiver that is not itself an instance call, and the
chained form `foo.bar.baz()` is a parse error (the argument list is demanded
where the second dot stands). -/
theorem instance_call_receiver_not_instance_call :
    (∀ fuel ts (e : Ast.Expr) ts',
      Ast.parsePrimary fuel ts false = .ok (e, ts') →
      e.isCallInstanceFn = false) ∧
    (∀ fuel ts (v : Ast.CallInstanceFn) ts',
      Ast.parseCallInstanceFn fuel ts = .ok (v, ts') →
      v.receiver.isCallInstanceFn = false) ∧
    Ast.parseAllExpr 32 [⟨.Ident, ⟨0, 3⟩⟩, ⟨.Dot, ⟨3, 4⟩⟩, ⟨.Ident, ⟨4, 7⟩⟩,
      ⟨.Dot, ⟨7, 8⟩⟩, ⟨.Ident, ⟨8, 11⟩⟩, ⟨.Open .Parenthesis, ⟨11, 12⟩⟩,
      ⟨.Close .Parenthesis, ⟨12, 13⟩⟩] =
      .error (.TokenMismatch (.Open .Parenthesis) .Dot ⟨7, 8⟩) := by
  refine ⟨Ast.parsePrimary_no_instance, ?_, by rfl⟩
  intro fuel ts v ts' h
  match fuel with
  | 0 => exact absurd h (by simp [Ast.parseCallInstanceFn])
  | fuel + 1 =>
    simp only [Ast.parseCallInstanceFn] at h
    obtain ⟨a, ha, h⟩ := Ast.bindOk _ _ _ h
    obtain ⟨b, hb, h⟩ := Ast.bindOk _ _ _ h
    obtain ⟨c, hc, h⟩ := Ast.bindOk _ _ _ h
    obtain ⟨d, hd, h⟩ := Ast.bindOk _ _ _ h
    simp only [Except.ok.injEq, Prod.mk.injEq] at h
    rw [← h.1]
    exact Ast.parseInInstanceCall_no_instance fuel ts a.1 a.2 ha

/-- Witness for C9: parsing `foo.bar()` yields an instance call whose
receiver is the plain identifier `foo`, which is not an instance call. -/
theorem instance_call_receiver_not_instance_call_witness :
    (∃ v ts', Ast.parseCallInstanceFn 32 [⟨.Ident, ⟨0, 3⟩⟩, ⟨.Dot, ⟨3, 4⟩⟩,
      ⟨.Ident, ⟨4, 7⟩⟩, ⟨.Open .Parenthesis, ⟨7, 8⟩⟩,
      ⟨.Close .Parenthesis, ⟨8, 9⟩⟩] = .ok (v, ts') ∧
      v.receiver.isCallInstanceFn = false) ∧
    (∃ e ts', Ast.parsePrimary 32 [⟨.Ident, ⟨0, 3⟩⟩] false = .ok (e, ts') ∧
      e.isCallInstanceFn = false) := by
  constructor
  · refine ⟨_, _, rfl, ?_⟩
    exact instance_call_receiver_not_instance_call.2.1 32
      [⟨.Ident, ⟨0, 3⟩⟩, ⟨.Dot, ⟨3, 4⟩⟩, ⟨.Ident, ⟨4, 7⟩⟩,
        ⟨.Open .Parenthesis, ⟨7, 8⟩⟩, ⟨.Close .Parenthesis, ⟨8, 9⟩⟩] _ _ rfl
  · refine ⟨_, _, rfl, ?_⟩
    exact instance_call_receiver_not_instance_call.1 32 [⟨.Ident, ⟨0, 3⟩⟩] _ _
      rfl

/-- C3 counterexample: on the token stream of `a + b < c` the parser produces
`a + (b < c)` — the comparison binds tighter than the addition — and not the
tree `(a + b) < c` that the claim requires. -/
theorem binary_precedence_comparison_counterexample :
    Ast.parseAllExpr 32 [⟨.Ident, ⟨0, 1⟩⟩, ⟨.Plus, ⟨2, 3⟩⟩, ⟨.Ident, ⟨4, 5⟩⟩,
      ⟨.Lt, ⟨6, 7⟩⟩, ⟨.Ident, ⟨8, 9⟩⟩] =
      .ok (.ExprBinary (.mk (.Ident ⟨.Ident, ⟨0, 1⟩⟩) (.Add ⟨.Plus, ⟨2, 3⟩⟩)
        (.ExprBinary (.mk (.Ident ⟨.Ident, ⟨4, 5⟩⟩) (.Lt ⟨.Lt, ⟨6, 7⟩⟩)
          (.Ident ⟨.Ident, ⟨8, 9⟩⟩))))) ∧
    Ast.Expr.ExprBinary (.mk (.Ident ⟨.Ident, ⟨0, 1⟩⟩) (.Add ⟨.Plus, ⟨2, 3⟩⟩)
        (.ExprBinary (.mk (.Ident ⟨.Ident, ⟨4, 5⟩⟩) (.Lt ⟨.Lt, ⟨6, 7⟩⟩)
          (.Ident ⟨.Ident, ⟨8, 9⟩⟩)))) ≠
      Ast.Expr.ExprBinary (.mk (.ExprBinary (.mk (.Ident ⟨.Ident, ⟨0, 1⟩⟩)
        (.Add ⟨.Plus, ⟨2, 3⟩⟩) (.Ident ⟨.Ident, ⟨4, 5⟩⟩))) (.Lt ⟨.Lt, ⟨6, 7⟩⟩)
        (.Ident ⟨.Ident, ⟨8, 9⟩⟩)) :=
  ⟨rfl, by simp⟩

/-- C3 (amended): binary expression parsing follows the code's precedence
table, in which additive operators bind weakest (precedence 0),
multiplicative operators bind tighter (10), and comparison operators bind
tighter still (`==`/`!=` at 20, `<`/`>`/`<=`/`>=` at 30): for every input of
the form `1 + 2 * 3` the parser produces `1 + (2 * 3)`, while for every input
of the form `a + b < c` it produces `a + (b < c)`. -/
theorem binary_precedence_amended :
    (∀ t : Ast.Token,
      Ast.BinOp.precedence (.Add t) = 0 ∧ Ast.BinOp.precedence (.Sub t) = 0 ∧
      Ast.BinOp.precedence (.Mul t) = 10 ∧ Ast.BinOp.precedence (.Div t) = 10 ∧
      Ast.BinOp.precedence (.Eq t) = 20 ∧ Ast.BinOp.precedence (.Neq t) = 20 ∧
      Ast.BinOp.precedence (.Lt t) = 30 ∧ Ast.BinOp.precedence (.Gt t) = 30 ∧
      Ast.BinOp.precedence (.Lte t) = 30 ∧
      Ast.BinOp.precedence (.Gte t) = 30) ∧
    (∀ s1 s2 s3 s4 s5 : Span,
      Ast.parseAllExpr 32 [⟨.NumberLiteral .Decimal, s1⟩, ⟨.Plus, s2⟩,
        ⟨.NumberLiteral .Decimal, s3⟩, ⟨.Star, s4⟩,
        ⟨.NumberLiteral .Decimal, s5⟩] =
      .ok (.ExprBinary (.mk (.NumberLiteral ⟨.Decimal, ⟨.NumberLiteral .Decimal, s1⟩⟩)
        (.Add ⟨.Plus, s2⟩)
        (.ExprBinary (.mk (.NumberLiteral ⟨.Decimal, ⟨.NumberLiteral .Decimal, s3⟩⟩)
          (.Mul ⟨.Star, s4⟩)
          (.NumberLiteral ⟨.Decimal, ⟨.NumberLiteral .Decimal, s5⟩⟩)))))) ∧
    (∀ s1 s2 s3 s4 s5 : Span,
      Ast.parseAllExpr 32 [⟨.Ident, s1⟩, ⟨.Plus, s2⟩, ⟨.Ident, s3⟩,
        ⟨.Lt, s4⟩, ⟨.Ident, s5⟩] =
      .ok (.ExprBinary (.mk (.Ident ⟨.Ident, s1⟩) (.Add ⟨.Plus, s2⟩)
        (.ExprBinary (.mk (.Ident ⟨.Ident, s3⟩) (.Lt ⟨.Lt, s4⟩)
          (.Ident ⟨.Ident, s5⟩)))))) :=
  ⟨fun _ => ⟨rfl, rfl, rfl, rfl, rfl, rfl, rfl, rfl, rfl, rfl⟩,
   fun _ _ _ _ _ => rfl, fun _ _ _ _ _ => rfl⟩

/-- C6 counterexample: resolving the escaped string literal `"a\tb"` does not
interpret `\t` as a tab — it fails with `BadStringEscapeSequence`, refuting
the claim that the `\t` escape is interpreted. -/
theorem string_escape_tab_counterexample :
    Ast.StringLit.resolve ⟨⟨.StringLiteral true, ⟨0, 6⟩⟩, true⟩
      ['"', 'a', '\\', 't', 'b', '"'] =
      .error (.BadStringEscapeSequence 't' ⟨0, 6⟩) := rfl

/-- C6 (amended): resolving a string literal flagged as escaped interprets
exactly the escape sequences `\n`, `\r` and `\"` into the corresponding
character, and reports `BadStringEscapeSequence` for every other escape
sequence, including `\t`, `\\`, `\0`, `\xNN` and `\u` ones. -/
theorem string_escape_amended :
    (∀ (span : Span) (rest : List Char),
      Ast.parse_escaped span ('\\' :: 'n' :: rest) =
        (fun b => '\n' :: b) <$> Ast.parse_escaped span rest) ∧
    (∀ (span : Span) (rest : List Char),
      Ast.parse_escaped span ('\\' :: 'r' :: rest) =
        (fun b => '\r' :: b) <$> Ast.parse_escaped span rest) ∧
    (∀ (span : Span) (rest : List Char),
      Ast.parse_escaped span ('\\' :: '"' :: rest) =
        (fun b => '"' :: b) <$> Ast.parse_escaped span rest) ∧
    (∀ (span : Span) (c : Char) (rest : List Char),
      ¬c = 'n' → ¬c = 'r' → ¬c = '"' →
      Ast.parse_escaped span ('\\' :: c :: rest) =
        .error (.BadStringEscapeSequence c span)) ∧
    (∀ (tok : Ast.Token) (src : List Char),
      Ast.StringLit.resolve ⟨tok, true⟩ src =
        (Ast.sourceSlice src (tok.span.narrow 1)).bind
          (fun s => Ast.Cow.Owned <$> Ast.parse_escaped tok.span s)) := by
  refine ⟨fun _ _ => rfl, fun _ _ => rfl, fun _ _ => rfl, ?_, fun _ _ => rfl⟩
  intro span c rest hn hr hq
  simp [Ast.parse_escaped, hn, hr, hq]

/-- Witness for C6 (amended) at concrete inputs: `\n` is interpreted as a
newline and `\t` is a bad escape. -/
theorem string_escape_amended_witness :
    Ast.parse_escaped ⟨0, 9⟩ ['\\', 'n', 'b'] = .ok ['\n', 'b'] ∧
    Ast.parse_escaped ⟨0, 9⟩ ['\\', 't'] =
      .error (.BadStringEscapeSequence 't' ⟨0, 9⟩) := by
  constructor
  · rw [string_escape_amended.1 ⟨0, 9⟩ ['b']]
    rfl
  · exact string_escape_amended.2.2.2.1 ⟨0, 9⟩ 't' [] (by decide) (by decide)
      (by decide)

/-- C10: resolving a string literal not flagged as escaped returns a borrowed
slice of the source over the token's span narrowed by exactly one byte at
each end: whenever the token spans `"` ++ `inner` ++ `"` in the source, the
resolved value is `Cow::Borrowed inner`, so re-surrounding the resolved text
with quotes reproduces the literal's source text (the first conjunct computes
that source text); resolution is a pure function of the source, which is left
unchanged.  The final conjunct records that `StringLiteral::parse` preserves
the token and its escaped flag. -/
theorem string_literal_resolve_roundtrip (pre inner suf : List Char)
    (tok : Ast.Token) (ts : Ast.Tokens)
    (h1 : tok.span.start = pre.length)
    (h2 : tok.span.stop = pre.length + inner.length + 2) :
    Ast.sourceSlice (pre ++ '"' :: (inner ++ '"' :: suf)) tok.span =
      .ok ('"' :: (inner ++ ['"'])) ∧
    Ast.StringLit.resolve ⟨tok, false⟩ (pre ++ '"' :: (inner ++ '"' :: suf)) =
      .ok (.Borrowed inner) ∧
    (tok.kind = .StringLiteral false →
      Ast.parseStringLit (tok :: ts) = .ok (⟨tok, false⟩, ts)) := by
  obtain ⟨k, sp⟩ := tok
  obtain ⟨s, e⟩ := sp
  simp only at h1 h2
  subst h1
  subst h2
  refine ⟨?_, ?_, ?_⟩
  · unfold Ast.sourceSlice
    rw [if_pos (by constructor <;> simp <;> omega)]
    congr 1
    rw [show pre.length + inner.length + 2 - pre.length = inner.length + 2 by
      omega]
    rw [List.drop_left]
    rw [show inner.length + 2 = (inner.length + 1) + 1 from rfl]
    rw [List.take_succ_cons]
    rw [List.take_append]
    simp
  · have hs : Ast.sourceSlice (pre ++ '"' :: (inner ++ '"' :: suf))
        ⟨pre.length + 1, pre.length + inner.length + 2 - 1⟩ = .ok inner := by
      unfold Ast.sourceSlice
      rw [if_pos (by constructor <;> simp <;> omega)]
      congr 1
      rw [show pre.length + inner.length + 2 - 1 - (pre.length + 1) =
        inner.length by omega]
      rw [List.append_cons pre '"' (inner ++ '"' :: suf)]
      rw [show pre.length + 1 = (pre ++ ['"']).length by simp]
      rw [List.drop_left]
      rw [List.take_left]
    simp only [Ast.StringLit.resolve, Span.narrow]
    rw [hs]
    rfl
  · intro hk
    subst hk
    rfl

/-- Witness for C10 at the concrete literal `"ab"`: the unescaped resolution
borrows exactly the inner text, and the token's source text is the resolved
text surrounded by quotes. -/
theorem string_literal_resolve_roundtrip_witness :
    Ast.StringLit.resolve ⟨⟨.StringLiteral false, ⟨0, 4⟩⟩, false⟩
      ['"', 'a', 'b', '"'] = .ok (.Borrowed ['a', 'b']) ∧
    Ast.sourceSlice ['"', 'a', 'b', '"'] ⟨0, 4⟩ =
      .ok ('"' :: (['a', 'b'] ++ ['"'])) := by
  have h := string_literal_resolve_roundtrip [] ['a', 'b'] []
    ⟨.StringLiteral false, ⟨0, 4⟩⟩ [] rfl rfl
  exact ⟨h.2.1, h.1⟩

end Rune
